import Mathlib

/-!
Formal model of the Quark browser-agent orchestration core.

This development gives a shallow embedding, in Lean, of the background
agent code of the extension: the tool registry and executor
(`src/background/tools.ts`), the completion-gateway response handling,
the permission broker, the session mutators and the main agent loop
(`src/background/agent.ts`), together with theorems about the
properties the specification states for them.

Modelling conventions:
- `generateId()` (a timestamp-plus-random string in the source) is
  modelled by a fresh natural-number counter threaded through the run;
  ids are only ever compared for equality.
- `Date.now()` is modelled by a logical clock threaded through the run.
- External effects (the LLM endpoint, the browser tab, the human
  answering permission prompts, persistent storage) are modelled as
  oracles supplied in an `Env`, and as effect logs (notifications sent
  to the UI observer, scripts saved to storage) carried in the run
  state.
- JavaScript truthiness tests on optional strings (`if (x)`) are
  modelled explicitly: `none` and `some ""` are falsy.
-/

/-- Status of an `AgentTask` (source type `AgentTaskStatus`). -/
inductive AgentTaskStatus where
  | pending
  | in_progress
  | completed
  | failed
  | awaiting_permission
deriving Repr, DecidableEq

/-- Status of an `AgentState` (source union `'idle' | 'running' | 'paused' | 'completed' | 'error'`). -/
inductive AgentStatus where
  | idle
  | running
  | paused
  | completed
  | error
deriving Repr, DecidableEq

/-- Message roles (source union on `AgentMessage.role`). -/
inductive Role where
  | system
  | user
  | assistant
  | tool
deriving Repr, DecidableEq

/-- Parsed tool-call arguments: a JSON object modelled as a key/value
association list; the values are opaque JSON fragments. -/
abbrev Args : Type := List (String × String)

/-- Look up a field of an argument object (JS property access `args.k`). -/
def argGet (args : Args) (k : String) : Option String :=
  (List.find? (fun p => p.1 == k) args).map (·.2)

/-- A tool call issued by the model (source interface `ToolCall`).
The id comes from the provider and is an opaque string. -/
structure ToolCall where
  id : String
  name : String
  arguments : Args
deriving Repr, DecidableEq

/-- Normalized result of executing a tool (source interface `ToolResult`).
The `data` payload is an opaque JSON fragment. -/
structure ToolResult where
  success : Bool
  data : Option String := none
  error : Option String := none
deriving Repr, DecidableEq

/-- One task line of the agent UI (source interface `AgentTask`).
Ids are modelled as naturals produced by the fresh-id counter. -/
structure AgentTask where
  id : Nat
  description : String
  status : AgentTaskStatus
  toolName : Option String := none
  toolParams : Option Args := none
  result : Option String := none
  error : Option String := none
  timestamp : Nat
deriving Repr, DecidableEq

/-- One conversation message (source interface `AgentMessage`). -/
structure AgentMessage where
  id : Nat
  role : Role
  content : String
  toolCalls : Option (List ToolCall) := none
  toolCallId : Option String := none
  timestamp : Nat
deriving Repr, DecidableEq

/-- The per-session agent state (source interface `AgentState`). -/
structure AgentState where
  id : String
  domain : String
  tabId : Nat
  status : AgentStatus
  tasks : List AgentTask
  messages : List AgentMessage
  activeScriptId : Option Nat := none
  error : Option String := none
  createdAt : Nat
  updatedAt : Nat
deriving Repr, DecidableEq

/-- A persisted script record (source interface `GeneratedScript`). -/
structure GeneratedScript where
  id : Nat
  name : String
  description : String
  code : String
  domain : String
  prompt : String
  model : String
  createdAt : Nat
  updatedAt : Nat
  enabled : Bool
  autoRun : Bool
deriving Repr, DecidableEq

/-- A pending permission request (source interface `PermissionRequest`). -/
structure PermissionRequest where
  id : Nat
  agentId : String
  toolName : String
  toolParams : Args
  description : String
  timestamp : Nat
deriving Repr, DecidableEq

/-- One entry of the static tool registry (source `ToolDefinition`).
The JSON parameter schemas advertised to the provider are omitted:
no verified property depends on them. -/
structure ToolDefinition where
  name : String
  description : String
  requiresPermission : Bool
deriving Repr, DecidableEq

/-- The static tool registry (source constant `TOOL_DEFINITIONS` in
`tools.ts`, same order and flags). -/
def TOOL_DEFINITIONS : List ToolDefinition := [
  { name := "capture_snapshot",
    description := "Capture the current page structure including DOM elements, forms, buttons, and other interactive elements. Use this to understand the page layout before making modifications.",
    requiresPermission := false },
  { name := "capture_screenshot",
    description := "Take a screenshot of the current page. Useful for visual understanding of the page layout.",
    requiresPermission := false },
  { name := "pick_element",
    description := "Prompt the user to click on an element on the page. Returns the element selector and HTML. Use this when you need the user to identify a specific element.",
    requiresPermission := false },
  { name := "verify_element",
    description := "Check if a CSS selector exists on the current page and return information about matching elements.",
    requiresPermission := false },
  { name := "read_page_content",
    description := "Extract text content from a specific element or the entire page.",
    requiresPermission := false },
  { name := "get_api_endpoints",
    description := "Get a list of API endpoints that have been intercepted on the current page. Useful for understanding what APIs the page uses.",
    requiresPermission := false },
  { name := "call_api",
    description := "Make an HTTP request to an API endpoint. Use this to test APIs or fetch data.",
    requiresPermission := true },
  { name := "inject_script",
    description := "Inject and execute JavaScript code on the current page. The code runs in the page context and can modify the DOM, intercept APIs, etc.",
    requiresPermission := true }
]

/-- Source `toolRequiresPermission` (`tools.ts`): look the tool up in the
registry; an unknown name defaults to `false`. -/
def toolRequiresPermission (toolName : String) : Bool :=
  match List.find? (fun t => t.name == toolName) TOOL_DEFINITIONS with
  | some tool => tool.requiresPermission
  | none => false

/-- Behaviour of the concrete tool implementations for one invocation:
either a normalized result, or a thrown exception carrying its message.
These reach into browser APIs, so they are supplied as an oracle. -/
structure ToolImpls where
  captureSnapshot : Except String ToolResult
  captureScreenshot : Except String ToolResult
  pickElement : Except String ToolResult
  verifyElement : Except String ToolResult
  readPageContent : Except String ToolResult
  getApiEndpoints : Except String ToolResult
  callApi : Except String ToolResult
  injectScript : Except String ToolResult

/-- The `switch (toolName)` body of `ToolExecutor.execute` (`tools.ts`):
select the implementation for a known name; the `default` branch returns
the unknown-tool error result (it cannot throw). -/
def dispatchTool (impls : ToolImpls) (toolName : String) : Except String ToolResult :=
  match toolName with
  | "capture_snapshot" => impls.captureSnapshot
  | "capture_screenshot" => impls.captureScreenshot
  | "pick_element" => impls.pickElement
  | "verify_element" => impls.verifyElement
  | "read_page_content" => impls.readPageContent
  | "get_api_endpoints" => impls.getApiEndpoints
  | "call_api" => impls.callApi
  | "inject_script" => impls.injectScript
  | _ => Except.ok { success := false, error := some ("Unknown tool: " ++ toolName) }

/-- Source `ToolExecutor.execute` (`tools.ts`): the dispatch runs inside
a try/catch, so any exception thrown by an implementation is converted
to `{success:false, error:<message>}`. -/
def ToolExecutor.execute (impls : ToolImpls) (toolName : String) : ToolResult :=
  match dispatchTool impls toolName with
  | Except.ok r => r
  | Except.error e => { success := false, error := some e }

/-- The eight registered tool names, in registry order. -/
def knownToolNames : List String :=
  TOOL_DEFINITIONS.map (·.name)

/-! ## Permission broker

The broker (`requestPermission` / `handlePermissionResponse` plus the
5-minute `setTimeout` in the source) is modelled as a state machine over
the two module-level maps `permissionResolvers` and
`pendingPermissions`, together with an `effects` log of the promise
resolutions that actually took effect.  Real time is abstracted into the
order in which the timeout event fires relative to the other events. -/

/-- Broker state: the ids present in `permissionResolvers`, the ids
present in `pendingPermissions`, and the log of resolutions that took
effect (each entry is the boolean a pending promise was resolved with). -/
structure PermBrokerState where
  resolvers : List Nat
  pending : List Nat
  effects : List (Nat × Bool)
deriving Repr, DecidableEq

/-- Events driving the broker: a request being raised (`requestPermission`
storing the record and its resolver), the 5-minute timer of a request
firing, and an external `handlePermissionResponse` call. -/
inductive PermEvent where
  | request (id : Nat)
  | timeoutFire (id : Nat)
  | respond (id : Nat) (approved : Bool)
deriving Repr, DecidableEq

/-- One broker transition, following the source:
`request` stores the record and resolver; the timer callback checks
`permissionResolvers.has(id)` and, if present, discards both entries and
resolves `false`; `handlePermissionResponse` looks the resolver up and,
if present, resolves with the given boolean and discards both entries. -/
def permStep (st : PermBrokerState) (e : PermEvent) : PermBrokerState :=
  match e with
  | PermEvent.request id =>
      { st with resolvers := st.resolvers ++ [id], pending := st.pending ++ [id] }
  | PermEvent.timeoutFire id =>
      if id ∈ st.resolvers then
        { resolvers := st.resolvers.filter (fun x => x != id),
          pending := st.pending.filter (fun x => x != id),
          effects := st.effects ++ [(id, false)] }
      else st
  | PermEvent.respond id approved =>
      if id ∈ st.resolvers then
        { resolvers := st.resolvers.filter (fun x => x != id),
          pending := st.pending.filter (fun x => x != id),
          effects := st.effects ++ [(id, approved)] }
      else st

/-- Run the broker over a sequence of events from a given state. -/
def permRun (st : PermBrokerState) : List PermEvent → PermBrokerState
  | [] => st
  | e :: es => permRun (permStep st e) es

/-- The empty broker state (both maps empty, nothing resolved). -/
def permInit : PermBrokerState := { resolvers := [], pending := [], effects := [] }

/-- Number of resolutions that took effect for a given request id. -/
def effectCount (st : PermBrokerState) (id : Nat) : Nat :=
  (st.effects.filter (fun p => p.1 == id)).length

/-! ## Completion gateway

`callOpenRouter` (`agent.ts`) performs one fetch and deserializes the
provider's reply.  The network layer is modelled as a `FetchOutcome`
oracle; `JSON.parse` is modelled as an oracle `parseJson` returning
either the parsed argument object or the message of the `SyntaxError` it
throws.  The source parses each raw tool call with
`JSON.parse(tc.function.arguments || '{}')` inside the same `try` block
whose `catch` produces the `Request failed:` error. -/

/-- A raw tool call as found in the provider payload:
`{id, function: {name, arguments}}` with `arguments` a JSON string. -/
structure RawToolCall where
  id : String
  name : String
  argumentsStr : String
deriving Repr, DecidableEq

/-- The provider message consumed from `choices[0].message`. -/
structure RawMessage where
  content : Option String
  tool_calls : List RawToolCall
deriving Repr, DecidableEq

/-- Outcome of the HTTP round trip, as seen by `callOpenRouter`. -/
inductive FetchOutcome where
  | httpError (status : Nat) (statusMsg : String)
  | ok (choice : Option RawMessage)
  | networkThrow (msg : String)
deriving Repr, DecidableEq

/-- What `callOpenRouter` returns to the loop: `{content?, toolCalls?, error?}`.
An absent `toolCalls` field is modelled as the empty list (the source
only ever attaches a non-empty list). -/
structure LLMResponse where
  content : Option String := none
  toolCalls : List ToolCall := []
  error : Option String := none
deriving Repr, DecidableEq

/-- The string actually handed to `JSON.parse`: the source evaluates
`tc.function.arguments || '{}'`, so an empty (or missing) arguments
string is replaced by the empty-object literal. -/
def effArgStr (tc : RawToolCall) : String :=
  if tc.argumentsStr == "" then "\x7b\x7d" else tc.argumentsStr

/-- Parse the arguments of the raw tool calls left to right, stopping at
the first `JSON.parse` failure; `.error` carries the exception message.
Models the `message.tool_calls.map(... JSON.parse ...)` expression,
whose first thrown `SyntaxError` aborts the whole `map`. -/
def parseRawToolCalls (parseJson : String → Except String Args) :
    List RawToolCall → Except String (List ToolCall)
  | [] => Except.ok []
  | tc :: rest =>
      match parseJson (effArgStr tc) with
      | Except.error e => Except.error e
      | Except.ok args =>
          match parseRawToolCalls parseJson rest with
          | Except.error e => Except.error e
          | Except.ok tcs => Except.ok ({ id := tc.id, name := tc.name, arguments := args } :: tcs)

/-- Source `callOpenRouter` (`agent.ts`), response handling: non-2xx
gives `API Error: ...`; a missing choice gives `No response from AI`;
a non-empty `tool_calls` array is parsed call by call (an argument-string
parse failure throws, landing in the outer catch as `Request failed:`);
otherwise only the content is returned. -/
def callOpenRouter (parseJson : String → Except String Args)
    (outcome : FetchOutcome) : LLMResponse :=
  match outcome with
  | FetchOutcome.httpError status statusMsg =>
      { error := some ("API Error: " ++ toString status ++ " - " ++ statusMsg) }
  | FetchOutcome.networkThrow msg =>
      { error := some ("Request failed: " ++ msg) }
  | FetchOutcome.ok none =>
      { error := some "No response from AI" }
  | FetchOutcome.ok (some message) =>
      if message.tool_calls.length > 0 then
        match parseRawToolCalls parseJson message.tool_calls with
        | Except.ok toolCalls => { toolCalls := toolCalls, content := message.content }
        | Except.error e => { error := some ("Request failed: " ++ e) }
      else
        { content := message.content }

/-! ## Free-text extraction (the two regexes of the final-answer branch)

`runAgent` extracts a script from the final assistant text with
`content.match(/```(?:javascript|js)?\n([\s\S]*?)```/)` and a name with
`content.match(/(?:Script Name|Name):\s*(.+)/i)`.  Both are modelled
character by character with JavaScript regex semantics: leftmost match,
alternatives tried in order, `[\s\S]*?` lazy, `\s*` greedy with
backtracking, `.` excluding line terminators, `/i` via lowercasing. -/

/-- JavaScript `\s` on the ASCII range: space, tab, LF, VT, FF, CR. -/
def jsWs (c : Char) : Bool :=
  c == ' ' || c == '\t' || c == '\n' || c == '\x0b' || c == '\x0c' || c == '\r'

/-- JavaScript `.` (no `s` flag): any character except a line terminator. -/
def jsDot (c : Char) : Bool :=
  c != '\n' && c != '\r'

/-- JavaScript `String.prototype.trim`: strip `\s` from both ends. -/
def jsTrim (s : List Char) : List Char :=
  ((s.dropWhile (fun c => jsWs c)).reverse.dropWhile (fun c => jsWs c)).reverse

/-- The head of `post` (if any) is not matched by `.`: a capture ending
right before `post` cannot be extended. -/
def dotStops : List Char → Prop
  | [] => True
  | c :: _ => jsDot c = false

/-- The head of `post` (if any) is not whitespace: a `\s*` run ending
right before `post` cannot be extended. -/
def wsStops : List Char → Prop
  | [] => True
  | c :: _ => jsWs c = false

/-- Does the fence-opening part ` ```(?:javascript|js)?\n ` match at the
start of `s`?  Returns the matched length.  The alternatives are
mutually exclusive here, so order does not matter. -/
def fenceOpenLen (s : List Char) : Option Nat :=
  if List.isPrefixOf ("```javascript\n".toList) s then some 14
  else if List.isPrefixOf ("```js\n".toList) s then some 6
  else if List.isPrefixOf ("```\n".toList) s then some 4
  else none

/-- Lazy body match `([\s\S]*?)` followed by ` ``` `: the shortest
body ending at the first triple backtick; `none` if no close exists. -/
def takeToClose : List Char → Option (List Char)
  | [] => none
  | c :: rest =>
      if List.isPrefixOf ("```".toList) (c :: rest) then some []
      else
        match takeToClose rest with
        | some body => some (c :: body)
        | none => none

/-- First match of ` /```(?:javascript|js)?\n([\s\S]*?)``` / `:
scan left to right; at a position where the opening matches but no
close follows, the regex fails at that position and scanning resumes
at the next character. -/
def matchFence : List Char → Option (List Char)
  | [] => none
  | c :: rest =>
      match fenceOpenLen (c :: rest) with
      | some k =>
          match takeToClose (List.drop k (c :: rest)) with
          | some body => some body
          | none => matchFence rest
      | none => matchFence rest

/-- Case-insensitive literal match at the start of `s` (`pat` given
lowercase). -/
def ciPrefixMatch (pat : List Char) (s : List Char) : Bool :=
  List.isPrefixOf pat (List.map Char.toLower (List.take pat.length s))

/-- Greedy `\s*` then `(.+)` after the label's colon: try the longest
whitespace skip first and backtrack; the capture is everything matched
by `.` up to the end of the line. -/
def bestCapture (s : List Char) : Nat → Option (List Char)
  | 0 =>
      (match s with
       | c :: _ => if jsDot c then some (s.takeWhile (fun x => jsDot x)) else none
       | [] => none)
  | k + 1 =>
      (match List.drop (k + 1) s with
       | c :: _ =>
           if jsDot c then some ((List.drop (k + 1) s).takeWhile (fun x => jsDot x))
           else bestCapture s k
       | [] => bestCapture s k)

/-- The `\s*(.+)` tail of the name regex, applied after a label. -/
def captureAfterLabel (s : List Char) : Option (List Char) :=
  bestCapture s ((s.takeWhile (fun c => jsWs c)).length)

/-- First match of ` /(?:Script Name|Name):\s*(.+)/i `, returning the
capture.  At each position the two alternatives are mutually exclusive;
if the label matches but the tail cannot, scanning resumes one
character later. -/
def matchName : List Char → Option (List Char)
  | [] => none
  | c :: rest =>
      if ciPrefixMatch ("script name:".toList) (c :: rest) then
        match captureAfterLabel (List.drop 12 (c :: rest)) with
        | some cap => some cap
        | none => matchName rest
      else if ciPrefixMatch ("name:".toList) (c :: rest) then
        match captureAfterLabel (List.drop 5 (c :: rest)) with
        | some cap => some cap
        | none => matchName rest
      else matchName rest

/-- String-level wrapper for the code-block regex. -/
def extractCodeBlock (content : String) : Option String :=
  (matchFence content.toList).map fun l => String.mk l

/-- String-level wrapper for the name regex. -/
def extractScriptName (content : String) : Option String :=
  (matchName content.toList).map fun l => String.mk l

/-- String-level wrapper for `trim`. -/
def trimString (s : String) : String :=
  String.mk (jsTrim s.toList)

/-! ## Agent session state and its mutators -/

/-- JavaScript truthiness of an optional string (`undefined` and `""`
are falsy). -/
def strTruthy : Option String → Bool
  | none => false
  | some s => s != ""

/-- JavaScript `a || b` on an optional string and a default. -/
def jsOrStr (o : Option String) (d : String) : String :=
  match o with
  | some s => if s == "" then d else s
  | none => d

/-- Replace the first list element satisfying the predicate (JS
`Array.prototype.find` followed by in-place mutation). -/
def updateFirst {α : Type} (p : α → Bool) (f : α → α) : List α → List α
  | [] => []
  | x :: xs => if p x then f x :: xs else x :: updateFirst p f xs

/-- Source `addTask` (`agent.ts`), state part: append a fresh pending
task and refresh `updatedAt`; the caller threads the fresh id and the
clock, and logs the notification. -/
def addTaskCore (agent : AgentState) (description : String) (toolName : Option String)
    (newId : Nat) (now : Nat) : AgentState × AgentTask :=
  let task : AgentTask :=
    { id := newId, description := description, status := AgentTaskStatus.pending,
      toolName := toolName, timestamp := now }
  ({ agent with tasks := agent.tasks ++ [task], updatedAt := now }, task)

/-- Source `updateTaskStatus` (`agent.ts`): find the task by id and
mutate its status in place (result and error only when supplied);
`updatedAt` is refreshed and a state notification is emitted whether or
not the task was found.  Returns the new state and the notifications
sent to the observer. -/
def updateTaskStatus (agent : AgentState) (taskId : Nat) (status : AgentTaskStatus)
    (result : Option String) (error : Option String) (now : Nat) :
    AgentState × List AgentState :=
  let agent' :=
    { agent with
        tasks := updateFirst (fun t => t.id == taskId)
          (fun t =>
            { t with
                status := status,
                result := match result with | some r => some r | none => t.result,
                error := match error with | some e => some e | none => t.error })
          agent.tasks,
        updatedAt := now }
  (agent', [agent'])

/-- Source `buildAgentSystemPrompt` (`agent.ts`). -/
def buildAgentSystemPrompt (domain : String) (activeScript : Option GeneratedScript) : String :=
  let base := "You are Quark, an AI agent that helps users customize and modify websites. You have access to tools that let you inspect, understand, and modify web pages.\n\nYour capabilities:\n- Capture and analyze page structure (capture_snapshot)\n- Take screenshots for visual understanding (capture_screenshot)\n- Let users point to specific elements (pick_element)\n- Verify if CSS selectors exist (verify_element)\n- Read page content (read_page_content)\n- View intercepted API endpoints (get_api_endpoints)\n- Make API calls to test endpoints (call_api)\n- Inject JavaScript to modify the page (inject_script)\n\nGuidelines:\n1. Before modifying a page, always capture a snapshot first to understand its structure\n2. Use verify_element to check if your selectors exist before injecting scripts\n3. When you need to target a specific element the user mentions, ask them to pick it\n4. For inject_script, always provide clear JavaScript with error handling\n5. If a tool call fails, try an alternative approach\n6. Ask for permission before running inject_script (it will automatically request)\n\nCurrent website: " ++ domain
  let base :=
    match activeScript with
    | some sc =>
        base ++ "\n\nYou are currently editing an existing script:\nName: " ++ sc.name
          ++ "\nDescription: " ++ sc.description ++ "\nOriginal prompt: " ++ sc.prompt
          ++ "\n\nCurrent code:\n```javascript\n" ++ sc.code
          ++ "\n```\n\nThe user wants to modify this script. Use the existing code as a starting point."
    | none => base
  base ++ "\n\nWhen generating JavaScript code:\n- Write self-contained code that handles errors\n- Use modern ES6+ syntax\n- Add comments explaining what the code does\n- Use fallback selectors when possible\n- Consider dynamic content (use MutationObserver if needed)\n\nRespond conversationally but stay focused on the task."

/-- Source `createAgent` (`agent.ts`): a fresh idle agent holding only
the system message.  The two `generateId()` calls are modelled by
`idCtr` and `idCtr + 1`. -/
def createAgent (domain : String) (tabId : Nat) (activeScript : Option GeneratedScript)
    (idCtr : Nat) (clock : Nat) : AgentState :=
  { id := toString idCtr,
    domain := domain,
    tabId := tabId,
    status := AgentStatus.idle,
    tasks := [],
    messages := [
      { id := idCtr + 1, role := Role.system,
        content := buildAgentSystemPrompt domain activeScript, timestamp := clock }],
    activeScriptId := activeScript.map (·.id),
    createdAt := clock,
    updatedAt := clock }

/-! ## The agent loop -/

/-- Trace of task lifecycle events, recorded alongside the run.  This is
a ghost log used to state temporal properties (a task "passes through" a
status before another): `created` is an `addTask`, `statusSet` is a
status write actually performed by `updateTaskStatus`. -/
inductive TraceEvent where
  | created (taskId : Nat) (toolName : Option String)
  | statusSet (taskId : Nat) (status : AgentTaskStatus)
deriving Repr, DecidableEq

/-- The external world of one run: the provider's reply to the i-th
completion call, the answer to the i-th permission request (a user
response, or the timeout's default denial), the result of the i-th tool
execution, the configuration, and the persisted scripts per domain. -/
structure Env where
  responses : Nat → LLMResponse
  perm : Nat → Bool
  exec : Nat → ToolResult
  apiKey : Option String
  model : String
  scriptsFor : String → List GeneratedScript

/-- Full state of one run: the session, the effect logs (observer
notifications, raised permission requests, scripts written to storage),
the ghost task trace, and the counters for fresh ids and the oracles.
The logical clock is frozen for the duration of a run: no verified
property depends on timestamp values. -/
structure RunState where
  agent : AgentState
  notifs : List AgentState := []
  permLog : List PermissionRequest := []
  savedScripts : List GeneratedScript := []
  trace : List TraceEvent := []
  idCtr : Nat
  clock : Nat
  permCtr : Nat := 0
  execCtr : Nat := 0
deriving Repr, DecidableEq

/-- Source `notifyStateUpdate`: push the current session snapshot to the
observer (modelled as appending to the notification log). -/
def notifyR (s : RunState) : RunState :=
  { s with notifs := s.notifs ++ [s.agent] }

/-- `addTask` as used inside a run: fresh id, notification, trace. -/
def addTaskR (s : RunState) (description : String) (toolName : Option String) :
    RunState × Nat :=
  let (a, task) := addTaskCore s.agent description toolName s.idCtr s.clock
  let s' := { s with
      agent := a,
      idCtr := s.idCtr + 1,
      trace := s.trace ++ [TraceEvent.created task.id toolName] }
  (notifyR s', task.id)

/-- `updateTaskStatus` as used inside a run: the status write is traced
exactly when the task id is actually present. -/
def updateTaskStatusR (s : RunState) (taskId : Nat) (status : AgentTaskStatus)
    (result : Option String) (error : Option String) : RunState :=
  let (a, ns) := updateTaskStatus s.agent taskId status result error s.clock
  { s with
      agent := a,
      notifs := s.notifs ++ ns,
      trace :=
        if (s.agent.tasks.find? (fun t => t.id == taskId)).isSome then
          s.trace ++ [TraceEvent.statusSet taskId status]
        else s.trace }

/-- Append a message to the session (`agent.messages.push(...)`). -/
def appendMessageR (s : RunState) (role : Role) (content : String)
    (toolCalls : Option (List ToolCall)) (toolCallId : Option String) : RunState :=
  { s with
      agent := { s.agent with
        messages := s.agent.messages ++
          [{ id := s.idCtr, role := role, content := content,
             toolCalls := toolCalls, toolCallId := toolCallId, timestamp := s.clock }] },
      idCtr := s.idCtr + 1 }

/-- The in-place `task.toolParams = toolCall.arguments` mutation. -/
def setToolParamsR (s : RunState) (taskId : Nat) (args : Args) : RunState :=
  { s with agent := { s.agent with
      tasks := updateFirst (fun t => t.id == taskId)
        (fun t => { t with toolParams := some args }) s.agent.tasks } }

/-- JSON.stringify of a `ToolResult` (fields bound to `undefined` are
omitted; `data` is an opaque JSON fragment embedded as is). -/
def stringifyResult (r : ToolResult) : String :=
  "\x7b\"success\":" ++ (if r.success then "true" else "false")
    ++ (match r.data with | some d => ",\"data\":" ++ d | none => "")
    ++ (match r.error with | some e => ",\"error\":\"" ++ e ++ "\"" | none => "")
    ++ "\x7d"

/-- JSON.stringify of `{ success: true, data }` as sent by
`handleElementSelected`. -/
def stringifySuccessData (d : String) : String :=
  "\x7b\"success\":true,\"data\":" ++ d ++ "\x7d"

/-- Content of the tool-role message recording a permission denial. -/
def deniedToolResultContent : String :=
  stringifyResult
    { success := false,
      error := some "Permission denied by user. Try a different approach or explain why this action is necessary." }

/-- The human-readable description built for a permission request. -/
def permissionDescription (toolCall : ToolCall) : String :=
  if toolCall.name == "inject_script" then
    "Run JavaScript: " ++ jsOrStr (argGet toolCall.arguments "description") "Execute custom code"
  else if toolCall.name == "call_api" then
    "Make API call to: " ++ (argGet toolCall.arguments "url").getD "undefined"
  else ""

/-- Source `requestPermission` as seen from the loop: store and publish
the request, then suspend until a boolean arrives — either from
`handlePermissionResponse` or from the 5-minute timer's default denial;
the boolean is supplied by the `perm` oracle.  (The exactly-once
resolution discipline of the broker is verified separately on
`permStep`.) -/
def requestPermissionR (env : Env) (s : RunState) (toolName : String)
    (toolParams : Args) (description : String) : RunState × Bool :=
  let req : PermissionRequest :=
    { id := s.idCtr, agentId := s.agent.id, toolName := toolName,
      toolParams := toolParams, description := description, timestamp := s.clock }
  let s' := { s with
      idCtr := s.idCtr + 1,
      permLog := s.permLog ++ [req],
      permCtr := s.permCtr + 1 }
  (s', env.perm s.permCtr)

/-- The task description line built for a tool call: the registry entry
with a 50-character excerpt of its description, or a fallback for an
unknown tool name. -/
def taskDescriptionFor (name : String) : String :=
  match List.find? (fun t => t.name == name) TOOL_DEFINITIONS with
  | some toolDef => "Using " ++ name ++ ": " ++ toolDef.description.take 50 ++ "..."
  | none => "Executing " ++ name

/-- The per-tool-call body of the `for (const toolCall of ...)` loop in
`runAgent`: task creation, the approval gate, execution through the
executor (whose outcome the `exec` oracle supplies), the `pick_element`
special case, and the tool-result message. -/
def processToolCall (env : Env) (s : RunState) (tc : ToolCall) : RunState :=
  let p := addTaskR s (taskDescriptionFor tc.name) (some tc.name)
  let s := p.1
  let taskId := p.2
  let s := setToolParamsR s taskId tc.arguments
  let s := notifyR s
  if toolRequiresPermission tc.name then
    let s := updateTaskStatusR s taskId AgentTaskStatus.awaiting_permission none none
    let q := requestPermissionR env s tc.name tc.arguments (permissionDescription tc)
    let s := q.1
    let approved := q.2
    if approved = false then
      let s := updateTaskStatusR s taskId AgentTaskStatus.failed none
        (some "Permission denied by user")
      appendMessageR s Role.tool deniedToolResultContent none (some tc.id)
    else
      processToolCallExec env s tc taskId
  else
    processToolCallExec env s tc taskId

where
  /-- Execution phase shared by the approved and the no-approval paths. -/
  processToolCallExec (env : Env) (s : RunState) (tc : ToolCall) (taskId : Nat) : RunState :=
    let s := updateTaskStatusR s taskId AgentTaskStatus.in_progress none none
    let result := env.exec s.execCtr
    let s := { s with execCtr := s.execCtr + 1 }
    let s :=
      if tc.name == "pick_element" && result.success then
        updateTaskStatusR s taskId AgentTaskStatus.awaiting_permission none none
      else s
    let s := updateTaskStatusR s taskId
      (if result.success then AgentTaskStatus.completed else AgentTaskStatus.failed)
      result.data result.error
    appendMessageR s Role.tool (stringifyResult result) none (some tc.id)

/-- Sequential execution of one response's tool calls, in order. -/
def processToolCalls (env : Env) (s : RunState) : List ToolCall → RunState
  | [] => s
  | tc :: rest => processToolCalls env (processToolCall env s tc) rest

/-- The final-answer branch: if the content holds a fenced code block,
persist the extracted script and rewrite `activeScriptId`. -/
def extractAndSaveScript (env : Env) (s : RunState) (content : String)
    (userMessage : String) (activeScript : Option GeneratedScript) : RunState :=
  match extractCodeBlock content with
  | none => s
  | some rawCode =>
      let code := trimString rawCode
      let name := jsOrStr (extractScriptName content) "Generated Script"
      let idPair : Nat × RunState :=
        match activeScript with
        | some sc =>
            if sc.id == 0 then (s.idCtr, { s with idCtr := s.idCtr + 1 }) else (sc.id, s)
        | none => (s.idCtr, { s with idCtr := s.idCtr + 1 })
      let script : GeneratedScript :=
        { id := idPair.1,
          name := name,
          description := userMessage,
          code := code,
          domain := s.agent.domain,
          prompt := userMessage,
          model := env.model,
          createdAt :=
            match activeScript with
            | some sc => if sc.createdAt == 0 then s.clock else sc.createdAt
            | none => s.clock,
          updatedAt := s.clock,
          enabled := true,
          autoRun := false }
      let s := idPair.2
      { s with
          savedScripts := s.savedScripts ++ [script],
          agent := { s.agent with activeScriptId := some script.id } }

/-- The iteration bound of the agent loop (source `maxIterations`). -/
def maxIterations : Nat := 10

/-- The gateway-error path of one loop iteration: mark the thinking task
failed, set session status/error, notify, and `return`. -/
def errorExit (s : RunState) (thinkingId : Nat) (err : String) : RunState :=
  let s := updateTaskStatusR s thinkingId AgentTaskStatus.failed none (some err)
  let s := { s with agent := { s.agent with status := AgentStatus.error, error := some err } }
  notifyR s

/-- The tool-call path of one loop iteration: record the assistant
message carrying the calls, execute the batch in order, notify. -/
def toolCallsPhase (env : Env) (s : RunState) (response : LLMResponse) : RunState :=
  let s := appendMessageR s Role.assistant (jsOrStr response.content "")
    (some response.toolCalls) none
  let s := processToolCalls env s response.toolCalls
  notifyR s

/-- The final-answer path of one loop iteration: append the assistant
text when truthy, extract and persist any script, mark the session
completed, notify, and `break`. -/
def finalizePhase (env : Env) (s : RunState) (response : LLMResponse)
    (userMessage : String) (activeScript : Option GeneratedScript) : RunState :=
  let s :=
    if strTruthy response.content then
      let s := appendMessageR s Role.assistant (jsOrStr response.content "") none none
      extractAndSaveScript env s (jsOrStr response.content "") userMessage activeScript
    else s
  let s := { s with agent := { s.agent with status := AgentStatus.completed } }
  notifyR s

/-- The `while (agent.status === 'running' && iterationCount < maxIterations)`
loop of `runAgent`.  `fuel` is only a structural-termination device: the
entry point passes `maxIterations`, so fuel runs out exactly when the
bound check fails anyway.  Returns the state, the final value of
`iterationCount`, and whether the loop body executed `return`
(the gateway-error path), which skips the post-loop bound check. -/
def agentLoop (env : Env) (userMessage : String) (activeScript : Option GeneratedScript) :
    Nat → RunState → Nat → RunState × Nat × Bool
  | 0, s, iterationCount => (s, iterationCount, false)
  | fuel + 1, s, iterationCount =>
      if s.agent.status = AgentStatus.running ∧ iterationCount < maxIterations then
        let ic := iterationCount + 1
        let p := addTaskR s "Thinking..." (some "llm")
        let response := env.responses (ic - 1)
        match response.error with
        | some err => (errorExit p.1 p.2 err, ic, true)
        | none =>
            let s := updateTaskStatusR p.1 p.2 AgentTaskStatus.completed none none
            if response.toolCalls.length > 0 then
              agentLoop env userMessage activeScript fuel (toolCallsPhase env s response) ic
            else
              (finalizePhase env s response userMessage activeScript, ic, false)
      else (s, iterationCount, false)

/-- Source `runAgent` (`agent.ts`) on a resolved session: configuration
check, status `running`, user message, the turn loop, and the post-loop
iteration-bound check (which the in-loop `return` path skips). -/
def runAgent (env : Env) (agent : AgentState) (userMessage : String)
    (activeScript : Option GeneratedScript) (idCtr : Nat) (clock : Nat) : RunState :=
  let s : RunState := { agent := agent, idCtr := idCtr, clock := clock }
  if strTruthy env.apiKey = false then
    let s := { s with agent :=
      { s.agent with
          status := AgentStatus.error,
          error := some "OpenRouter API key not configured" } }
    notifyR s
  else
    let s := { s with agent := { s.agent with status := AgentStatus.running } }
    let s := notifyR s
    let s := appendMessageR s Role.user userMessage none none
    let s := notifyR s
    let r := agentLoop env userMessage activeScript maxIterations s 0
    let s := r.1
    let iterationCount := r.2.1
    let earlyReturn := r.2.2
    if earlyReturn = false ∧ iterationCount ≥ maxIterations then
      let s := { s with agent :=
        { s.agent with
            status := AgentStatus.error,
            error := some "Maximum iterations reached" } }
      notifyR s
    else s

/-- The process-wide `activeAgents` map, as an association list. -/
abbrev AgentMap := List (String × AgentState)

/-- `activeAgents.get(id)`. -/
def mapLookup (m : AgentMap) (agentId : String) : Option AgentState :=
  (List.find? (fun p => p.1 == agentId) m).map (·.2)

/-- Write back the (in place mutated) session under its id. -/
def mapSet (m : AgentMap) (agentId : String) (a : AgentState) : AgentMap :=
  updateFirst (fun p => p.1 == agentId) (fun p => (p.1, a)) m

/-- Source `runAgent` entry: resolve the session id first; an unknown id
only logs to the console and returns. -/
def runAgentTop (env : Env) (m : AgentMap) (agentId : String) (userMessage : String)
    (activeScript : Option GeneratedScript) (idCtr : Nat) (clock : Nat) :
    AgentMap × List AgentState :=
  match mapLookup m agentId with
  | none => (m, [])
  | some agent =>
      let s := runAgent env agent userMessage activeScript idCtr clock
      (mapSet m agentId s.agent, s.notifs)

/-- Source `stopAgent`: pause a resolved session and notify; unknown id
is a no-op. -/
def stopAgent (m : AgentMap) (agentId : String) : AgentMap × List AgentState :=
  match mapLookup m agentId with
  | none => (m, [])
  | some agent =>
      let a := { agent with status := AgentStatus.paused }
      (mapSet m agentId a, [a])

/-- Source `resumeAgent`: resolve the session, re-read its active script
from storage, and re-enter `runAgent`; unknown id returns untouched. -/
def resumeAgent (env : Env) (m : AgentMap) (agentId : String) (userMessage : String)
    (idCtr : Nat) (clock : Nat) : AgentMap × List AgentState :=
  match mapLookup m agentId with
  | none => (m, [])
  | some agent =>
      let activeScript :=
        match agent.activeScriptId with
        | some sid => (env.scriptsFor agent.domain).find? (fun sc => sc.id == sid)
        | none => none
      runAgentTop env m agentId userMessage activeScript idCtr clock

/-- Source `handleElementSelected`, session part: reconcile the element
payload against the first task still awaiting the element picker, append
a tool-role message (with no `toolCallId`), and notify.  When no such
task exists nothing is appended. -/
def handleElementSelectedAgent (agent : AgentState) (elementData : String)
    (idCtr : Nat) (clock : Nat) : AgentState × List AgentState :=
  match agent.tasks.find? (fun t =>
      t.status == AgentTaskStatus.awaiting_permission && t.toolName == some "pick_element") with
  | none => (agent, [])
  | some awaitingTask =>
      let p := updateTaskStatus agent awaitingTask.id AgentTaskStatus.completed
        (some elementData) none clock
      let a := p.1
      let a := { a with messages := a.messages ++
        [{ id := idCtr, role := Role.tool, content := stringifySuccessData elementData,
           timestamp := clock }] }
      (a, p.2 ++ [a])

/-- Source `handleElementSelected` entry: unknown session ids return
untouched. -/
def handleElementSelected (m : AgentMap) (agentId : String) (elementData : String)
    (idCtr : Nat) (clock : Nat) : AgentMap × List AgentState :=
  match mapLookup m agentId with
  | none => (m, [])
  | some agent =>
      let p := handleElementSelectedAgent agent elementData idCtr clock
      (mapSet m agentId p.1, p.2)

/-! ## Stated properties -/

/-- The task id an event belongs to. -/
def eventTid : TraceEvent → Nat
  | TraceEvent.created t _ => t
  | TraceEvent.statusSet t _ => t

/-- All task ids mentioned by a trace. -/
def traceTids (tr : List TraceEvent) : List Nat := tr.map eventTid

/-- Property P2 on a task trace: every status write of `in_progress` or
`failed` to a task created for `inject_script` or `call_api` is preceded
by a write of `awaiting_permission` to that task, and a task created for
any other tool never receives an `awaiting_permission` write — except a
`pick_element` task, which may. -/
def gatingProp (tr : List TraceEvent) : Prop :=
  ∀ tid name, TraceEvent.created tid name ∈ tr →
    ((name = some "inject_script" ∨ name = some "call_api") →
      ∀ i st, tr.get? i = some (TraceEvent.statusSet tid st) →
        (st = AgentTaskStatus.in_progress ∨ st = AgentTaskStatus.failed) →
        ∃ j, j < i ∧ tr.get? j =
          some (TraceEvent.statusSet tid AgentTaskStatus.awaiting_permission))
    ∧ ((name ≠ some "inject_script" ∧ name ≠ some "call_api" ∧ name ≠ some "pick_element") →
      ∀ i, tr.get? i ≠ some (TraceEvent.statusSet tid AgentTaskStatus.awaiting_permission))

/-- The status-write word of one task, in write order: any
`in_progress`/`failed` is preceded by an `awaiting_permission`. -/
def stsGateOK (sts : List AgentTaskStatus) : Prop :=
  ∀ i, i < sts.length → ∀ st, sts.get? i = some st →
    (st = AgentTaskStatus.in_progress ∨ st = AgentTaskStatus.failed) →
    ∃ j, j < i ∧ sts.get? j = some AgentTaskStatus.awaiting_permission

/-- The contiguous trace block of one task: its creation followed by its
status writes. -/
def blockOf (t : Nat) (name : Option String) (sts : List AgentTaskStatus) : List TraceEvent :=
  TraceEvent.created t name :: sts.map (TraceEvent.statusSet t)

/-- The tool-call ids issued by a message (only assistant messages issue
tool calls). -/
def issuedIds (m : AgentMessage) : List String :=
  if m.role = Role.assistant then (m.toolCalls.getD []).map (·.id) else []

/-- All tool-call ids issued by assistant messages of a conversation, in
order. -/
def assistantIds (msgs : List AgentMessage) : List String :=
  msgs.flatMap issuedIds

/-- The tool-call ids of one provider response. -/
def responseIds (r : LLMResponse) : List String := r.toolCalls.map (·.id)

/-- All tool-call ids the provider issues over the first `n` turns. -/
def allIds (env : Env) (n : Nat) : List String :=
  (List.range n).flatMap fun k => responseIds (env.responses k)

/-- Property P1 on a message sequence: every tool-role message carries a
`toolCallId` matching exactly one tool-call id issued by an assistant
message strictly earlier in the sequence. -/
def msgOK (msgs : List AgentMessage) : Prop :=
  ∀ i m, msgs.get? i = some m → m.role = Role.tool →
    ∃ cid, m.toolCallId = some cid ∧ (assistantIds (msgs.take i)).count cid = 1

/-- No task of the list is still awaiting the element picker. -/
def noAwaitingPick (tasks : List AgentTask) : Prop :=
  ∀ t ∈ tasks, ¬(t.status = AgentTaskStatus.awaiting_permission ∧ t.toolName = some "pick_element")

/-- The ids of the `request` events of a broker event sequence. -/
def requestIds : List PermEvent → List Nat
  | [] => []
  | PermEvent.request id :: es => id :: requestIds es
  | _ :: es => requestIds es

/-- Check that no (case-insensitive) name label of the name regex
matches at a position strictly inside `s` when `t` is appended after it;
used to place the scanner's first label match beyond `s`. -/
def noCiLabelInside (s t : List Char) : Bool :=
  match s with
  | [] => true
  | c :: rest =>
      (!ciPrefixMatch ("script name:".toList) ((c :: rest) ++ t)
        && !ciPrefixMatch ("name:".toList) ((c :: rest) ++ t))
      && noCiLabelInside rest t

/-! ## Concrete instances used by the closed theorems -/

/-- A minimal idle session. -/
def agent0 : AgentState :=
  { id := "a0", domain := "example.com", tabId := 1, status := AgentStatus.idle,
    tasks := [], messages := [], createdAt := 0, updatedAt := 0 }

/-- A no-argument `capture_snapshot` call with a distinct id per turn. -/
def snapCall (i : Nat) : ToolCall :=
  { id := "c" ++ toString i, name := "capture_snapshot", arguments := [] }

/-- A successful tool result. -/
def okExec : ToolResult := { success := true, data := some "\"ok\"" }

/-- Environment whose provider answers every turn with a tool call. -/
def envMaxIter : Env :=
  { responses := fun i => { toolCalls := [snapCall i] },
    perm := fun _ => true,
    exec := fun _ => okExec,
    apiKey := some "k", model := "m", scriptsFor := fun _ => [] }

/-- Provider sends tool calls on turns 1–9 and a tool-call-free final
answer (holding a code block) on turn 10. -/
def envTurn10Final : Env :=
  { envMaxIter with
      responses := fun i =>
        if i < 9 then { toolCalls := [snapCall i] }
        else { content := some "Done\n```javascript\nlet x = 1;\n```" } }

/-- Provider sends tool calls on turns 1–8 and a final answer on turn 9. -/
def envTurn9Final : Env :=
  { envMaxIter with
      responses := fun i =>
        if i < 8 then { toolCalls := [snapCall i] }
        else { content := some "All done" } }

/-- Provider requests the element picker on turn 1, then finishes. -/
def envPick : Env :=
  { envMaxIter with
      responses := fun i =>
        if i = 0 then { toolCalls := [{ id := "p1", name := "pick_element", arguments := [] }] }
        else { content := some "done" },
      exec := fun _ =>
        { success := true, data := some "\x7b\"status\":\"awaiting_selection\"\x7d" } }

/-- Provider requests one snapshot on turn 1, then finishes. -/
def envOneSnap : Env :=
  { envMaxIter with
      responses := fun i =>
        if i = 0 then { toolCalls := [snapCall 0] }
        else { content := some "done" } }

/-- A JSON.parse oracle: accepts `{}` and `{"a":1}`, rejects the rest. -/
def parseJsonW : String → Except String Args := fun s =>
  if s == "\x7b\x7d" then Except.ok []
  else if s == "\x7b\"a\":1\x7d" then Except.ok [("a", "1")]
  else Except.error "Unexpected token"

/-- A provider payload with one well-formed and one malformed tool call. -/
def rawMsgW : RawMessage :=
  { content := some "working on it",
    tool_calls := [
      { id := "t1", name := "capture_snapshot", argumentsStr := "\x7b\"a\":1\x7d" },
      { id := "t2", name := "inject_script", argumentsStr := "not json" }] }

/-- Tool implementations that all succeed. -/
def implsOk : ToolImpls :=
  { captureSnapshot := Except.ok { success := true },
    captureScreenshot := Except.ok { success := true },
    pickElement := Except.ok { success := true },
    verifyElement := Except.ok { success := true },
    readPageContent := Except.ok { success := true },
    getApiEndpoints := Except.ok { success := true },
    callApi := Except.ok { success := true },
    injectScript := Except.ok { success := true } }

/-- Tool implementations whose `call_api` throws. -/
def implsBoom : ToolImpls :=
  { implsOk with callApi := Except.error "boom" }

/-- A session holding a single pending task with id 7. -/
def agentOneTask : AgentState :=
  { agent0 with tasks := [
      { id := 7, description := "d", status := AgentTaskStatus.pending,
        toolName := some "llm", timestamp := 0 }] }

/-- The well-formed raw call of `rawMsgW`. -/
def rawGood : RawToolCall :=
  { id := "t1", name := "capture_snapshot", argumentsStr := "\x7b\"a\":1\x7d" }

/-- The malformed raw call of `rawMsgW`. -/
def rawBad : RawToolCall :=
  { id := "t2", name := "inject_script", argumentsStr := "not json" }

/-- A raw call with an empty arguments string. -/
def rawEmptyArgs : RawToolCall :=
  { id := "t3", name := "capture_snapshot", argumentsStr := "" }

/-! ## Helper lemmas -/

/-- `updateFirst` leaves a list alone when nothing matches. -/
theorem updateFirst_no_match {α : Type} (p : α → Bool) (f : α → α) (l : List α)
    (h : ∀ x ∈ l, p x = false) : updateFirst p f l = l := by
  induction l with
  | nil => rfl
  | cons x xs ih =>
      have hx := h x (List.mem_cons_self x xs)
      simp only [updateFirst, hx, Bool.false_eq_true, if_false, List.cons.injEq, true_and]
      exact ih fun y hy => h y (List.mem_cons_of_mem x hy)

/-- `permRun` over an appended event list. -/
theorem permRun_append (st : PermBrokerState) (es fs : List PermEvent) :
    permRun st (es ++ fs) = permRun (permRun st es) fs := by
  induction es generalizing st with
  | nil => rfl
  | cons e es ih => simp [permRun, ih]

/-- Filtering away one value then counting it gives zero. -/
theorem count_filter_bne_self (l : List Nat) (a : Nat) :
    (l.filter (fun x => x != a)).count a = 0 := by
  rw [List.count_eq_zero]
  intro hmem
  rcases List.mem_filter.mp hmem with ⟨-, hkeep⟩
  simp at hkeep

/-- Filtering away another value keeps a count unchanged. -/
theorem count_filter_bne_other (l : List Nat) (a b : Nat) (h : b ≠ a) :
    (l.filter (fun x => x != a)).count b = l.count b := by
  induction l with
  | nil => rfl
  | cons x xs ih =>
      by_cases hx : x = a
      · subst hx
        simp [List.filter, List.count_cons, h]
      · have hkeep : (x != a) = true := by simp [hx]
        simp [List.filter, hkeep, List.count_cons, ih]

/-- Appending one effect entry changes the per-id count by its match. -/
theorem filter_fst_append (l : List (Nat × Bool)) (a : Nat) (b : Bool) (id : Nat) :
    ((l ++ [(a, b)]).filter (fun p => p.1 == id)).length =
      (l.filter (fun p => p.1 == id)).length + (if a = id then 1 else 0) := by
  by_cases h : a = id
  · simp [List.filter_append, List.filter, h]
  · have hb : (a == id) = false := by simp [h]
    simp [List.filter_append, List.filter, hb, h]

/-- Count bookkeeping: an id's taken effects, live resolver entries and
future request events jointly never exceed one, so at most one
resolution ever takes effect. -/
theorem permRun_effect_bound (es : List PermEvent) (st : PermBrokerState) (id : Nat)
    (h : effectCount st id + st.resolvers.count id + (requestIds es).count id ≤ 1) :
    effectCount (permRun st es) id ≤ 1 := by
  induction es generalizing st with
  | nil => simp only [permRun]; omega
  | cons e es ih =>
      simp only [permRun]
      apply ih
      cases e with
      | request id' =>
          simp only [permStep, List.count_append, effectCount] at h ⊢
          by_cases hid : id' = id
          · subst hid
            simp only [requestIds, List.count_cons_self] at h
            simp [List.count_singleton]
            omega
          · simp only [requestIds, List.count_cons, if_neg hid] at h
            simp [List.count_singleton, hid]
            omega
      | timeoutFire id' =>
          by_cases hmem : id' ∈ st.resolvers
          · simp only [permStep, if_pos hmem, effectCount, requestIds] at h ⊢
            rw [filter_fst_append]
            by_cases hid : id' = id
            · subst hid
              have hres : 1 ≤ st.resolvers.count id' := List.one_le_count_iff.mpr hmem
              rw [count_filter_bne_self, if_pos rfl]
              omega
            · rw [count_filter_bne_other _ _ _ (Ne.symm hid), if_neg hid]
              omega
          · simp only [permStep, if_neg hmem, requestIds] at h ⊢
            omega
      | respond id' b =>
          by_cases hmem : id' ∈ st.resolvers
          · simp only [permStep, if_pos hmem, effectCount, requestIds] at h ⊢
            rw [filter_fst_append]
            by_cases hid : id' = id
            · subst hid
              have hres : 1 ≤ st.resolvers.count id' := List.one_le_count_iff.mpr hmem
              rw [count_filter_bne_self, if_pos rfl]
              omega
            · rw [count_filter_bne_other _ _ _ (Ne.symm hid), if_neg hid]
              omega
          · simp only [permStep, if_neg hmem, requestIds] at h ⊢
            omega

/-- A live resolver survives events that neither time it out nor answer
it. -/
theorem resolver_stays (pre : List PermEvent) (st : PermBrokerState) (id : Nat)
    (h : id ∈ st.resolvers)
    (hnoresp : ∀ b, PermEvent.respond id b ∉ pre)
    (hnot : PermEvent.timeoutFire id ∉ pre) :
    id ∈ (permRun st pre).resolvers := by
  induction pre generalizing st with
  | nil => exact h
  | cons e es ih =>
      have hnoresp' : ∀ b, PermEvent.respond id b ∉ es := fun b hb =>
        hnoresp b (List.mem_cons_of_mem e hb)
      have hnot' : PermEvent.timeoutFire id ∉ es := fun hb =>
        hnot (List.mem_cons_of_mem e hb)
      refine ih (permStep st e) ?_ hnoresp' hnot'
      cases e with
      | request id' =>
          simp only [permStep]
          exact List.mem_append_left _ h
      | timeoutFire id' =>
          have hid : id' ≠ id := by
            intro hc; subst hc
            exact hnot (List.mem_cons_self _ _)
          by_cases hmem : id' ∈ st.resolvers
          · simp only [permStep, if_pos hmem]
            exact List.mem_filter.mpr ⟨h, by simp [Ne.symm hid]⟩
          · simpa only [permStep, if_neg hmem]
      | respond id' b =>
          have hid : id' ≠ id := by
            intro hc; subst hc
            exact hnoresp b (List.mem_cons_self _ _)
          by_cases hmem : id' ∈ st.resolvers
          · simp only [permStep, if_pos hmem]
            exact List.mem_filter.mpr ⟨h, by simp [Ne.symm hid]⟩
          · simpa only [permStep, if_neg hmem]

/-- After a request that was neither answered nor timed out, its
resolver is still live. -/
theorem request_then_resolver (pre : List PermEvent) (st : PermBrokerState) (id : Nat)
    (hreq : PermEvent.request id ∈ pre)
    (hnoresp : ∀ b, PermEvent.respond id b ∉ pre)
    (hnot : PermEvent.timeoutFire id ∉ pre) :
    id ∈ (permRun st pre).resolvers := by
  induction pre generalizing st with
  | nil => cases hreq
  | cons e es ih =>
      have hnoresp' : ∀ b, PermEvent.respond id b ∉ es := fun b hb =>
        hnoresp b (List.mem_cons_of_mem e hb)
      have hnot' : PermEvent.timeoutFire id ∉ es := fun hb =>
        hnot (List.mem_cons_of_mem e hb)
      by_cases he : e = PermEvent.request id
      · subst he
        refine resolver_stays es _ id ?_ hnoresp' hnot'
        simp [permStep]
      · have hreq' : PermEvent.request id ∈ es := by
          rcases List.mem_cons.mp hreq with h1 | h1
          · exact absurd h1.symm he
          · exact h1
        simpa only [permRun] using ih (permStep st e) hreq' hnoresp' hnot'

/-- Events that neither answer nor time out a request add no effect for
its id. -/
theorem no_effect_through (pre : List PermEvent) (st : PermBrokerState) (id : Nat)
    (hnoresp : ∀ b, PermEvent.respond id b ∉ pre)
    (hnot : PermEvent.timeoutFire id ∉ pre) :
    effectCount (permRun st pre) id = effectCount st id := by
  induction pre generalizing st with
  | nil => rfl
  | cons e es ih =>
      have hnoresp' : ∀ b, PermEvent.respond id b ∉ es := fun b hb =>
        hnoresp b (List.mem_cons_of_mem e hb)
      have hnot' : PermEvent.timeoutFire id ∉ es := fun hb =>
        hnot (List.mem_cons_of_mem e hb)
      have step : effectCount (permStep st e) id = effectCount st id := by
        cases e with
        | request id' => rfl
        | timeoutFire id' =>
            have hid : id' ≠ id := by
              intro hc; subst hc
              exact hnot (List.mem_cons_self _ _)
            by_cases hmem : id' ∈ st.resolvers
            · simp only [permStep, if_pos hmem, effectCount]
              rw [filter_fst_append, if_neg hid]
              omega
            · simp only [permStep, if_neg hmem]
        | respond id' b =>
            have hid : id' ≠ id := by
              intro hc; subst hc
              exact hnoresp b (List.mem_cons_self _ _)
            by_cases hmem : id' ∈ st.resolvers
            · simp only [permStep, if_pos hmem, effectCount]
              rw [filter_fst_append, if_neg hid]
              omega
            · simp only [permStep, if_neg hmem]
      calc effectCount (permRun st (e :: es)) id
          = effectCount (permRun (permStep st e) es) id := rfl
        _ = effectCount (permStep st e) id := ih (permStep st e) hnoresp' hnot'
        _ = effectCount st id := step

/-- One broker step can only extend the effect log. -/
theorem effectCount_step_le (st : PermBrokerState) (e : PermEvent) (id : Nat) :
    effectCount st id ≤ effectCount (permStep st e) id := by
  cases e with
  | request id' => exact le_refl _
  | timeoutFire id' =>
      by_cases h : id' ∈ st.resolvers
      · simp only [permStep, if_pos h, effectCount]
        rw [filter_fst_append]
        omega
      · simp only [permStep, if_neg h]
        exact le_refl _
  | respond id' b =>
      by_cases h : id' ∈ st.resolvers
      · simp only [permStep, if_pos h, effectCount]
        rw [filter_fst_append]
        omega
      · simp only [permStep, if_neg h]
        exact le_refl _

/-- A broker run can only extend the effect log. -/
theorem effectCount_run_le (st : PermBrokerState) (es : List PermEvent) (id : Nat) :
    effectCount st id ≤ effectCount (permRun st es) id := by
  induction es generalizing st with
  | nil => exact le_refl _
  | cons e es ih => exact le_trans (effectCount_step_le st e id) (ih (permStep st e))

/-- C3: for every permission request, exactly one resolution ever takes
effect: left unanswered until its timer fires, the request resolves to
`false` exactly once (over the whole event sequence) and its record is
discarded from both broker maps; an external `handlePermissionResponse`
arriving when the resolver is already gone is a no-op. -/
theorem C3_timeout_default_deny (evs pre post : List PermEvent) (id : Nat)
    (hsplit : evs = pre ++ PermEvent.timeoutFire id :: post)
    (hreq : PermEvent.request id ∈ pre)
    (hnoresp : ∀ b, PermEvent.respond id b ∉ pre)
    (hnotimeout : PermEvent.timeoutFire id ∉ pre)
    (hnodup : (requestIds evs).Nodup) :
    effectCount (permRun permInit evs) id = 1
    ∧ (permRun permInit (pre ++ [PermEvent.timeoutFire id])).effects =
        (permRun permInit pre).effects ++ [(id, false)]
    ∧ id ∉ (permRun permInit (pre ++ [PermEvent.timeoutFire id])).resolvers
    ∧ id ∉ (permRun permInit (pre ++ [PermEvent.timeoutFire id])).pending
    ∧ (∀ (st : PermBrokerState) (b : Bool), id ∉ st.resolvers →
        permStep st (PermEvent.respond id b) = st) := by
  have hres : id ∈ (permRun permInit pre).resolvers :=
    request_then_resolver pre permInit id hreq hnoresp hnotimeout
  have heff0 : effectCount (permRun permInit pre) id = 0 := by
    rw [no_effect_through pre permInit id hnoresp hnotimeout]; rfl
  have hstep : permRun permInit (pre ++ [PermEvent.timeoutFire id]) =
      permStep (permRun permInit pre) (PermEvent.timeoutFire id) := by
    rw [permRun_append]; rfl
  have hts : permStep (permRun permInit pre) (PermEvent.timeoutFire id) =
      { resolvers := (permRun permInit pre).resolvers.filter (fun x => x != id),
        pending := (permRun permInit pre).pending.filter (fun x => x != id),
        effects := (permRun permInit pre).effects ++ [(id, false)] } := by
    simp [permStep, hres]
  have h1 : effectCount (permRun permInit (pre ++ [PermEvent.timeoutFire id])) id = 1 := by
    rw [hstep, hts]
    simp only [effectCount] at heff0 ⊢
    rw [filter_fst_append, if_pos rfl]
    omega
  refine ⟨?_, ?_, ?_, ?_, ?_⟩
  · have hle : effectCount (permRun permInit evs) id ≤ 1 := by
      apply permRun_effect_bound
      have hcount : (requestIds evs).count id ≤ 1 :=
        List.nodup_iff_count_le_one.mp hnodup id
      simpa [permInit, effectCount] using hcount
    have hge : 1 ≤ effectCount (permRun permInit evs) id := by
      rw [hsplit, List.append_cons, permRun_append]
      calc 1 = effectCount (permRun permInit (pre ++ [PermEvent.timeoutFire id])) id := h1.symm
        _ ≤ _ := effectCount_run_le _ post id
    omega
  · rw [hstep, hts]
  · rw [hstep, hts]
    intro hmem
    rcases List.mem_filter.mp hmem with ⟨-, hk⟩
    simp at hk
  · rw [hstep, hts]
    intro hmem
    rcases List.mem_filter.mp hmem with ⟨-, hk⟩
    simp at hk
  · intro st b h
    simp [permStep, h]

/-- C3 witness: a request that times out unanswered, followed by a late
manual approval, at concrete values. -/
theorem C3_timeout_default_deny_witness :
    effectCount (permRun permInit
      [PermEvent.request 1, PermEvent.timeoutFire 1, PermEvent.respond 1 true]) 1 = 1
    ∧ (permRun permInit ([PermEvent.request 1] ++ [PermEvent.timeoutFire 1])).effects =
        (permRun permInit [PermEvent.request 1]).effects ++ [(1, false)]
    ∧ 1 ∉ (permRun permInit ([PermEvent.request 1] ++ [PermEvent.timeoutFire 1])).resolvers
    ∧ 1 ∉ (permRun permInit ([PermEvent.request 1] ++ [PermEvent.timeoutFire 1])).pending
    ∧ (∀ (st : PermBrokerState) (b : Bool), 1 ∉ st.resolvers →
        permStep st (PermEvent.respond 1 b) = st) :=
  C3_timeout_default_deny
    [PermEvent.request 1, PermEvent.timeoutFire 1, PermEvent.respond 1 true]
    [PermEvent.request 1] [PermEvent.respond 1 true] 1
    (by decide) (by decide) (by decide) (by decide) (by decide)

/-- C7 counterexample: an unrecognized tool name does yield a normalized
failure, but its error text is `Unknown tool: <name>`, not the literal
`unknown tool` the claim states. -/
theorem C7_unknown_tool_message_counterexample :
    ToolExecutor.execute implsOk "frobnicate" ≠
      { success := false, data := none, error := some "unknown tool" } := by
  decide

/-- C7 (amended): `execute` always returns a normalized result and never
throws: an unrecognized name yields `{success:false, error:"Unknown
tool: <name>"}`; an implementation that throws `e` is converted to
`{success:false, error:e}`; a returned result passes through unchanged. -/
theorem C7_execute_normalized (impls : ToolImpls) (name : String) :
    (name ∉ knownToolNames →
      ToolExecutor.execute impls name =
        { success := false, data := none, error := some ("Unknown tool: " ++ name) })
    ∧ (∀ e, dispatchTool impls name = Except.error e →
      ToolExecutor.execute impls name = { success := false, data := none, error := some e })
    ∧ (∀ r, dispatchTool impls name = Except.ok r →
      ToolExecutor.execute impls name = r) := by
  refine ⟨?_, ?_, ?_⟩
  · intro h
    have hd : dispatchTool impls name =
        Except.ok { success := false, data := none, error := some ("Unknown tool: " ++ name) } := by
      unfold dispatchTool
      split <;> simp_all [knownToolNames, TOOL_DEFINITIONS]
    simp [ToolExecutor.execute, hd]
  · intro e he
    simp [ToolExecutor.execute, he]
  · intro r hr
    simp [ToolExecutor.execute, hr]

/-- C7 witness: the unknown-name and the thrown-exception conversions at
concrete inputs. -/
theorem C7_execute_normalized_witness :
    ToolExecutor.execute implsOk "frobnicate" =
      { success := false, data := none, error := some ("Unknown tool: " ++ "frobnicate") }
    ∧ ToolExecutor.execute implsBoom "call_api" =
      { success := false, data := none, error := some "boom" } :=
  ⟨(C7_execute_normalized implsOk "frobnicate").1 (by decide),
   (C7_execute_normalized implsBoom "call_api").2.1 "boom" rfl⟩

/-- C9 counterexample: with an unknown task id the tasks are untouched,
but the session is *not* left unchanged — `updatedAt` is refreshed and a
state notification is still emitted. -/
theorem C9_unknown_task_counterexample :
    (updateTaskStatus agentOneTask 99 AgentTaskStatus.completed none none 1).1 ≠ agentOneTask
    ∧ (updateTaskStatus agentOneTask 99 AgentTaskStatus.completed none none 1).2 ≠ [] := by
  constructor
  · intro h
    have := congrArg AgentState.updatedAt h
    simp [updateTaskStatus, agentOneTask, agent0] at this
  · intro h
    simp [updateTaskStatus] at h

/-- C9 (amended): when the task id is unknown no task is modified, but
`updateTaskStatus` still refreshes the session's `updatedAt` and still
notifies the observer with the (timestamp-only) updated snapshot. -/
theorem C9_unknown_task_noop (agent : AgentState) (taskId : Nat)
    (status : AgentTaskStatus) (result error : Option String) (now : Nat)
    (h : ∀ t ∈ agent.tasks, t.id ≠ taskId) :
    updateTaskStatus agent taskId status result error now =
      ({ agent with updatedAt := now }, [{ agent with updatedAt := now }]) := by
  unfold updateTaskStatus
  rw [updateFirst_no_match]
  intro t ht
  simp [h t ht]

/-- C9 witness: the amended no-op shape at a concrete session. -/
theorem C9_unknown_task_noop_witness :
    updateTaskStatus agentOneTask 99 AgentTaskStatus.completed none none 1 =
      ({ agentOneTask with updatedAt := 1 }, [{ agentOneTask with updatedAt := 1 }]) :=
  C9_unknown_task_noop agentOneTask 99 AgentTaskStatus.completed none none 1 (by decide)

/-- C10: calling `runAgent`, `stopAgent`, `resumeAgent` or
`handleElementSelected` with a session id absent from the in-memory map
changes no session, appends nothing, and notifies no observer. -/
theorem C10_unknown_session (env : Env) (m : AgentMap) (agentId userMessage : String)
    (activeScript : Option GeneratedScript) (idCtr clock : Nat) (elementData : String)
    (h : mapLookup m agentId = none) :
    runAgentTop env m agentId userMessage activeScript idCtr clock = (m, [])
    ∧ stopAgent m agentId = (m, [])
    ∧ resumeAgent env m agentId userMessage idCtr clock = (m, [])
    ∧ handleElementSelected m agentId elementData idCtr clock = (m, []) := by
  refine ⟨?_, ?_, ?_, ?_⟩ <;>
    simp [runAgentTop, stopAgent, resumeAgent, handleElementSelected, h]

/-- C10 witness: the four entry points at an empty session map. -/
theorem C10_unknown_session_witness :
    runAgentTop envMaxIter [] "missing" "hi" none 0 0 = ([], [])
    ∧ stopAgent [] "missing" = ([], [])
    ∧ resumeAgent envMaxIter [] "missing" "hi" 0 0 = ([], [])
    ∧ handleElementSelected [] "missing" "\x7b\x7d" 0 0 = ([], []) :=
  C10_unknown_session envMaxIter [] "missing" "hi" none 0 0 "\x7b\x7d" rfl

/-- C4 counterexample: one malformed arguments string turns the whole
response into a transport-style error — the other call and the content
are dropped, instead of the malformed call degrading to empty
arguments. -/
theorem C4_malformed_args_counterexample :
    callOpenRouter parseJsonW (FetchOutcome.ok (some rawMsgW)) =
      { content := none, toolCalls := [],
        error := some "Request failed: Unexpected token" } := by
  decide

/-- C4 (amended): an *empty* raw arguments string is replaced by the
empty JSON object before parsing, so that call degrades to empty
arguments; but a non-empty arguments string that fails to parse throws
inside the response handler, and the whole response becomes a
`Request failed:` error. -/
theorem C4_argument_parsing (parseJson : String → Except String Args) :
    (∀ (tc : RawToolCall) (rest : List RawToolCall) (args0 : Args),
      tc.argumentsStr = "" →
      parseJson "\x7b\x7d" = Except.ok args0 →
      parseRawToolCalls parseJson (tc :: rest) =
        (parseRawToolCalls parseJson rest).map
          (fun tcs => { id := tc.id, name := tc.name, arguments := args0 } :: tcs))
    ∧ (∀ (pre : List RawToolCall) (tc : RawToolCall) (post : List RawToolCall)
        (content : Option String) (e : String),
      (∀ c ∈ pre, ∃ a, parseJson (effArgStr c) = Except.ok a) →
      parseJson (effArgStr tc) = Except.error e →
      callOpenRouter parseJson
          (FetchOutcome.ok (some { content := content, tool_calls := pre ++ tc :: post })) =
        { content := none, toolCalls := [], error := some ("Request failed: " ++ e) }) := by
  constructor
  · intro tc rest args0 hstr hok
    have heff : effArgStr tc = "\x7b\x7d" := by simp [effArgStr, hstr]
    rw [parseRawToolCalls, heff, hok]
    cases parseRawToolCalls parseJson rest <;> simp [Except.map]
  · intro pre tc post content e hpre hfail
    have habort : parseRawToolCalls parseJson (pre ++ tc :: post) = Except.error e := by
      induction pre with
      | nil => simp [parseRawToolCalls, hfail]
      | cons c cs ih =>
          rcases hpre c (List.mem_cons_self _ _) with ⟨a, ha⟩
          have ih' := ih fun x hx => hpre x (List.mem_cons_of_mem c hx)
          simp only [List.cons_append, parseRawToolCalls, ha, List.append_eq, ih']
    have hlen : (pre ++ tc :: post).length > 0 := by
      simp
    simp [callOpenRouter, hlen, habort]

/-- C4 witness: both behaviours at concrete inputs — an empty arguments
string gives empty arguments, and the mixed well-formed/malformed
payload of the counterexample aborts with the parse error. -/
theorem C4_argument_parsing_witness :
    parseRawToolCalls parseJsonW [rawEmptyArgs] =
      (parseRawToolCalls parseJsonW []).map
        (fun tcs => { id := rawEmptyArgs.id, name := rawEmptyArgs.name, arguments := ([] : Args) } :: tcs)
    ∧ callOpenRouter parseJsonW
        (FetchOutcome.ok (some { content := some "working on it", tool_calls := [rawGood] ++ rawBad :: [] })) =
      { content := none, toolCalls := [], error := some "Request failed: Unexpected token" } :=
  ⟨(C4_argument_parsing parseJsonW).1 rawEmptyArgs [] [] rfl rfl,
   (C4_argument_parsing parseJsonW).2 [rawGood] rawBad []
      (some "working on it") "Unexpected token"
      (by
        intro c hc
        simp only [List.mem_singleton] at hc
        exact ⟨[("a", "1")], by rw [hc]; rfl⟩)
      rfl⟩

/-- C1 (code bug): with tool calls on turns 1–9 and a tool-call-free
final answer on turn 10, the run saves the script from the final answer
and marks the session completed, but the post-loop bound check
(`iterationCount >= maxIterations`) then overwrites the status with
`error` / `Maximum iterations reached` — the spec says a final answer on
the 10th turn still completes.  The other conjuncts show the parts of
the claim the code does satisfy: ten consecutive tool-call turns end in
the bound error having recorded exactly ten thinking tasks, and a final
answer on turn 9 ends `completed`. -/
theorem C1_turn10_final_answer_still_errors :
    ((runAgent envTurn10Final agent0 "msg" none 100 0).agent.status = AgentStatus.error
      ∧ (runAgent envTurn10Final agent0 "msg" none 100 0).agent.error =
          some "Maximum iterations reached"
      ∧ (runAgent envTurn10Final agent0 "msg" none 100 0).savedScripts.length = 1)
    ∧ ((runAgent envMaxIter agent0 "msg" none 100 0).agent.status = AgentStatus.error
      ∧ (runAgent envMaxIter agent0 "msg" none 100 0).agent.error =
          some "Maximum iterations reached"
      ∧ ((runAgent envMaxIter agent0 "msg" none 100 0).agent.tasks.filter
          (fun t => t.toolName == some "llm")).length = 10)
    ∧ (runAgent envTurn9Final agent0 "msg" none 100 0).agent.status = AgentStatus.completed := by
  decide

set_option maxRecDepth 4000 in
/-- C5 (code bug): when `pick_element` reports success the special case
writes `awaiting_permission` but the unconditional status update right
after it immediately overwrites the task to `completed`, so the task is
*not* left awaiting and the later element-selected event finds no task
to reconcile — `handleElementSelected` becomes a no-op, against both the
spec and the source's own comment that it waits for the selection. -/
theorem C5_pick_element_not_left_awaiting :
    ((runAgent envPick agent0 "msg" none 100 0).agent.tasks.filter
        (fun t => t.toolName == some "pick_element")).map (·.status) =
      [AgentTaskStatus.completed]
    ∧ (runAgent envPick agent0 "msg" none 100 0).trace.filter
        (fun e => match e with
          | TraceEvent.statusSet _ AgentTaskStatus.awaiting_permission => true
          | _ => false) ≠ []
    ∧ handleElementSelectedAgent (runAgent envPick agent0 "msg" none 100 0).agent
        "\x7b\"sel\":\"a\"\x7d" 500 9 =
      ((runAgent envPick agent0 "msg" none 100 0).agent, []) := by
  decide

/-! ## Trace structure of a run (claim C2) -/

/-- Every event of a task block carries that task's id. -/
theorem eventTid_blockOf (t : Nat) (name : Option String) (sts : List AgentTaskStatus) :
    ∀ e ∈ blockOf t name sts, eventTid e = t := by
  intro e he
  rcases List.mem_cons.mp he with h | h
  · subst h; rfl
  · rcases List.mem_map.mp h with ⟨st, -, hst⟩
    subst hst; rfl

/-- A status word starting with `awaiting_permission` satisfies the
gate: every later write is preceded by that first one. -/
theorem stsGateOK_cons_awaiting (rest : List AgentTaskStatus) :
    stsGateOK (AgentTaskStatus.awaiting_permission :: rest) := by
  intro i hi st hst hstat
  cases i with
  | zero =>
      simp only [List.get?] at hst
      cases hst
      rcases hstat with h | h <;> cases h
  | succ n => exact ⟨0, Nat.succ_pos n, rfl⟩

/-- `updateFirst` with an id-preserving mutation keeps the id list. -/
theorem map_id_updateFirst (p : AgentTask → Bool) (f : AgentTask → AgentTask)
    (l : List AgentTask) (hf : ∀ t, (f t).id = t.id) :
    (updateFirst p f l).map (·.id) = l.map (·.id) := by
  induction l with
  | nil => rfl
  | cons x xs ih =>
      by_cases hx : p x
      · simp [updateFirst, hx, hf]
      · simp [updateFirst, hx, ih]

/-- A task id present in the list makes the source's `find` succeed. -/
theorem find_id_isSome (l : List AgentTask) (i : Nat) (h : i ∈ l.map (·.id)) :
    (l.find? (fun t => t.id == i)).isSome = true := by
  rcases List.mem_map.mp h with ⟨task, hmem, hid⟩
  rw [List.find?_isSome]
  exact ⟨task, hmem, by simp [hid]⟩

/-- Trace effect of `addTaskR`. -/
theorem addTaskR_trace (s : RunState) (d : String) (n : Option String) :
    (addTaskR s d n).1.trace = s.trace ++ [TraceEvent.created s.idCtr n] := rfl

/-- The id returned by `addTaskR` is the pre-state counter. -/
theorem addTaskR_snd (s : RunState) (d : String) (n : Option String) :
    (addTaskR s d n).2 = s.idCtr := rfl

/-- `addTaskR` takes exactly one fresh id. -/
theorem addTaskR_idCtr (s : RunState) (d : String) (n : Option String) :
    (addTaskR s d n).1.idCtr = s.idCtr + 1 := rfl

/-- `addTaskR` appends a task carrying the fresh id. -/
theorem addTaskR_ids (s : RunState) (d : String) (n : Option String) :
    (addTaskR s d n).1.agent.tasks.map (·.id) = s.agent.tasks.map (·.id) ++ [s.idCtr] := by
  simp [addTaskR, addTaskCore, notifyR]

/-- Trace effect of `updateTaskStatusR` on a present task. -/
theorem updateTaskStatusR_trace (s : RunState) (i : Nat) (st : AgentTaskStatus)
    (r e : Option String) (h : i ∈ s.agent.tasks.map (·.id)) :
    (updateTaskStatusR s i st r e).trace = s.trace ++ [TraceEvent.statusSet i st] := by
  simp [updateTaskStatusR, updateTaskStatus, find_id_isSome _ _ h]

/-- `updateTaskStatusR` keeps the id counter. -/
theorem updateTaskStatusR_idCtr (s : RunState) (i : Nat) (st : AgentTaskStatus)
    (r e : Option String) : (updateTaskStatusR s i st r e).idCtr = s.idCtr := rfl

/-- `updateTaskStatusR` keeps the task id list. -/
theorem updateTaskStatusR_ids (s : RunState) (i : Nat) (st : AgentTaskStatus)
    (r e : Option String) :
    (updateTaskStatusR s i st r e).agent.tasks.map (·.id) = s.agent.tasks.map (·.id) := by
  simp only [updateTaskStatusR, updateTaskStatus]
  exact map_id_updateFirst _ _ _ fun t => rfl

/-- `setToolParamsR` neither traces nor renumbers anything. -/
theorem setToolParamsR_trace (s : RunState) (i : Nat) (a : Args) :
    (setToolParamsR s i a).trace = s.trace := rfl

/-- `setToolParamsR` keeps the id counter. -/
theorem setToolParamsR_idCtr (s : RunState) (i : Nat) (a : Args) :
    (setToolParamsR s i a).idCtr = s.idCtr := rfl

/-- `setToolParamsR` keeps the task id list. -/
theorem setToolParamsR_ids (s : RunState) (i : Nat) (a : Args) :
    (setToolParamsR s i a).agent.tasks.map (·.id) = s.agent.tasks.map (·.id) := by
  simp only [setToolParamsR]
  exact map_id_updateFirst _ _ _ fun t => rfl

/-- `notifyR` only logs a snapshot. -/
theorem notifyR_trace (s : RunState) : (notifyR s).trace = s.trace := rfl

/-- `notifyR` keeps the id counter. -/
theorem notifyR_idCtr (s : RunState) : (notifyR s).idCtr = s.idCtr := rfl

/-- `notifyR` keeps the task id list. -/
theorem notifyR_ids (s : RunState) :
    (notifyR s).agent.tasks.map (·.id) = s.agent.tasks.map (·.id) := rfl

/-- `requestPermissionR` only logs the request and takes a fresh id. -/
theorem requestPermissionR_trace (env : Env) (s : RunState) (tn : String) (tp : Args)
    (d : String) : (requestPermissionR env s tn tp d).1.trace = s.trace := rfl

/-- `requestPermissionR` takes one fresh id for the request. -/
theorem requestPermissionR_idCtr (env : Env) (s : RunState) (tn : String) (tp : Args)
    (d : String) : (requestPermissionR env s tn tp d).1.idCtr = s.idCtr + 1 := rfl

/-- `requestPermissionR` keeps the task id list. -/
theorem requestPermissionR_ids (env : Env) (s : RunState) (tn : String) (tp : Args)
    (d : String) :
    (requestPermissionR env s tn tp d).1.agent.tasks.map (·.id) = s.agent.tasks.map (·.id) := rfl

/-- `appendMessageR` touches messages and the id counter only. -/
theorem appendMessageR_trace (s : RunState) (role : Role) (c : String)
    (tcs : Option (List ToolCall)) (tcid : Option String) :
    (appendMessageR s role c tcs tcid).trace = s.trace := rfl

/-- `appendMessageR` takes one fresh id for the message. -/
theorem appendMessageR_idCtr (s : RunState) (role : Role) (c : String)
    (tcs : Option (List ToolCall)) (tcid : Option String) :
    (appendMessageR s role c tcs tcid).idCtr = s.idCtr + 1 := rfl

/-- `appendMessageR` keeps the task id list. -/
theorem appendMessageR_ids (s : RunState) (role : Role) (c : String)
    (tcs : Option (List ToolCall)) (tcid : Option String) :
    (appendMessageR s role c tcs tcid).agent.tasks.map (·.id) = s.agent.tasks.map (·.id) := rfl

/-- The registry flags exactly `call_api` and `inject_script` as
requiring approval. -/
theorem toolRequiresPermission_iff (n : String) :
    toolRequiresPermission n = true ↔ (n = "call_api" ∨ n = "inject_script") := by
  constructor
  · intro h
    by_cases h1 : n = "capture_snapshot"
    · subst h1; exact absurd h (by decide)
    · by_cases h2 : n = "capture_screenshot"
      · subst h2; exact absurd h (by decide)
      · by_cases h3 : n = "pick_element"
        · subst h3; exact absurd h (by decide)
        · by_cases h4 : n = "verify_element"
          · subst h4; exact absurd h (by decide)
          · by_cases h5 : n = "read_page_content"
            · subst h5; exact absurd h (by decide)
            · by_cases h6 : n = "get_api_endpoints"
              · subst h6; exact absurd h (by decide)
              · by_cases h7 : n = "call_api"
                · exact Or.inl h7
                · by_cases h8 : n = "inject_script"
                  · exact Or.inr h8
                  · exfalso
                    have e1 : ("capture_snapshot" == n) = false := by
                      simp only [beq_eq_false_iff_ne, ne_eq]
                      exact fun hc => h1 hc.symm
                    have e2 : ("capture_screenshot" == n) = false := by
                      simp only [beq_eq_false_iff_ne, ne_eq]
                      exact fun hc => h2 hc.symm
                    have e3 : ("pick_element" == n) = false := by
                      simp only [beq_eq_false_iff_ne, ne_eq]
                      exact fun hc => h3 hc.symm
                    have e4 : ("verify_element" == n) = false := by
                      simp only [beq_eq_false_iff_ne, ne_eq]
                      exact fun hc => h4 hc.symm
                    have e5 : ("read_page_content" == n) = false := by
                      simp only [beq_eq_false_iff_ne, ne_eq]
                      exact fun hc => h5 hc.symm
                    have e6 : ("get_api_endpoints" == n) = false := by
                      simp only [beq_eq_false_iff_ne, ne_eq]
                      exact fun hc => h6 hc.symm
                    have e7 : ("call_api" == n) = false := by
                      simp only [beq_eq_false_iff_ne, ne_eq]
                      exact fun hc => h7 hc.symm
                    have e8 : ("inject_script" == n) = false := by
                      simp only [beq_eq_false_iff_ne, ne_eq]
                      exact fun hc => h8 hc.symm
                    rw [toolRequiresPermission, TOOL_DEFINITIONS] at h
                    simp only [List.find?, e1, e2, e3, e4, e5, e6, e7, e8] at h
                    exact absurd h (by decide)
  · rintro (rfl | rfl) <;> decide

/-- The gate property of a single task block, from a gate on its status
word (for approval-gated tools) or awaiting-freedom (for other tools,
the element picker excepted). -/
theorem gatingProp_blockOf (t : Nat) (name : Option String) (sts : List AgentTaskStatus)
    (h1 : (name = some "inject_script" ∨ name = some "call_api") → stsGateOK sts)
    (h2 : (name ≠ some "inject_script" ∧ name ≠ some "call_api" ∧ name ≠ some "pick_element") →
      AgentTaskStatus.awaiting_permission ∉ sts) :
    gatingProp (blockOf t name sts) := by
  intro tid nm hcreated
  have hid : tid = t ∧ nm = name := by
    rcases List.mem_cons.mp hcreated with h | h
    · injection h with ha hb
      exact ⟨ha, hb⟩
    · rcases List.mem_map.mp h with ⟨st, -, hst⟩
      cases hst
  obtain ⟨h_tid, h_nm⟩ := hid
  subst h_tid
  subst h_nm
  constructor
  · intro hname i st hget hstat
    cases i with
    | zero =>
        simp only [blockOf, List.get?] at hget
        cases hget
    | succ j =>
        have hget' : (sts.map (TraceEvent.statusSet tid)).get? j =
            some (TraceEvent.statusSet tid st) := hget
        rw [List.get?_map] at hget'
        cases hsts : sts.get? j with
        | none => rw [hsts] at hget'; cases hget'
        | some st' =>
            rw [hsts] at hget'
            have hst' : st' = st := by
              injection (Option.some.inj hget')
            subst hst'
            have hj : j < sts.length := by
              by_contra hc
              rw [List.get?_eq_none.mpr (le_of_not_lt hc)] at hsts
              cases hsts
            rcases h1 hname j hj st' hsts hstat with ⟨k, hk, hkget⟩
            refine ⟨k + 1, by omega, ?_⟩
            show (sts.map (TraceEvent.statusSet tid)).get? k =
              some (TraceEvent.statusSet tid AgentTaskStatus.awaiting_permission)
            rw [List.get?_map, hkget]
            rfl
  · intro hname i hget
    cases i with
    | zero =>
        simp only [blockOf, List.get?] at hget
        cases hget
    | succ j =>
        have hget' : (sts.map (TraceEvent.statusSet tid)).get? j =
            some (TraceEvent.statusSet tid AgentTaskStatus.awaiting_permission) := hget
        rw [List.get?_map] at hget'
        cases hsts : sts.get? j with
        | none => rw [hsts] at hget'; cases hget'
        | some st' =>
            rw [hsts] at hget'
            have hst' : st' = AgentTaskStatus.awaiting_permission := by
              injection (Option.some.inj hget')
            subst hst'
            exact h2 hname (List.get?_mem hsts)

/-- Appending one fresh task's block preserves the gate property. -/
theorem gatingProp_append (tr blk : List TraceEvent) (t : Nat)
    (h1 : gatingProp tr)
    (hblk : ∀ e ∈ blk, eventTid e = t)
    (h2 : gatingProp blk)
    (hfresh : t ∉ traceTids tr) :
    gatingProp (tr ++ blk) := by
  intro tid name hcreated
  rcases List.mem_append.mp hcreated with hin | hin
  · have htid : tid ≠ t := by
      intro hc; subst hc
      exact hfresh (List.mem_map.mpr ⟨TraceEvent.created tid name, hin, rfl⟩)
    constructor
    · intro hname i st hget hstat
      by_cases hi : i < tr.length
      · rw [List.get?_append hi] at hget
        rcases (h1 tid name hin).1 hname i st hget hstat with ⟨j, hj, hjget⟩
        have hjlt : j < tr.length := by
          by_contra hc
          rw [List.get?_eq_none.mpr (le_of_not_lt hc)] at hjget
          cases hjget
        exact ⟨j, hj, by rw [List.get?_append hjlt]; exact hjget⟩
      · push_neg at hi
        rw [List.get?_append_right hi] at hget
        have hmem := List.get?_mem hget
        have := hblk _ hmem
        simp only [eventTid] at this
        exact absurd this htid
    · intro hname i hget
      by_cases hi : i < tr.length
      · rw [List.get?_append hi] at hget
        exact (h1 tid name hin).2 hname i hget
      · push_neg at hi
        rw [List.get?_append_right hi] at hget
        have hmem := List.get?_mem hget
        have := hblk _ hmem
        simp only [eventTid] at this
        exact absurd this htid
  · have htid : tid = t := by
      have := hblk _ hin
      simpa only [eventTid] using this
    subst htid
    constructor
    · intro hname i st hget hstat
      by_cases hi : i < tr.length
      · rw [List.get?_append hi] at hget
        have hmem := List.get?_mem hget
        exact absurd (List.mem_map.mpr ⟨TraceEvent.statusSet tid st, hmem, rfl⟩) hfresh
      · push_neg at hi
        rw [List.get?_append_right hi] at hget
        rcases (h2 tid name hin).1 hname (i - tr.length) st hget hstat with ⟨j, hj, hjget⟩
        refine ⟨tr.length + j, by omega, ?_⟩
        rw [List.get?_append_right (by omega)]
        simpa [Nat.add_sub_cancel_left] using hjget
    · intro hname i hget
      by_cases hi : i < tr.length
      · rw [List.get?_append hi] at hget
        have hmem := List.get?_mem hget
        exact absurd (List.mem_map.mpr ⟨_, hmem, rfl⟩) hfresh
      · push_neg at hi
        rw [List.get?_append_right hi] at hget
        exact (h2 tid name hin).2 hname (i - tr.length) hget

/-- Trace shape of the execution phase of one tool call: only status
writes to the given task, with `awaiting_permission` occurring only for
the element picker. -/
theorem processToolCallExec_trace (env : Env) (s : RunState) (tc : ToolCall) (taskId : Nat)
    (h : taskId ∈ s.agent.tasks.map (·.id)) :
    ∃ sts : List AgentTaskStatus,
      (processToolCall.processToolCallExec env s tc taskId).trace =
        s.trace ++ sts.map (TraceEvent.statusSet taskId)
      ∧ (AgentTaskStatus.awaiting_permission ∉ sts ∨ tc.name = "pick_element")
      ∧ (processToolCall.processToolCallExec env s tc taskId).idCtr = s.idCtr + 1 := by
  simp only [processToolCall.processToolCallExec]
  split
  · rename_i hcond
    rcases (Bool.and_eq_true _ _).mp hcond with ⟨hname, hsucc⟩
    refine ⟨[AgentTaskStatus.in_progress, AgentTaskStatus.awaiting_permission,
      if (env.exec (updateTaskStatusR s taskId AgentTaskStatus.in_progress none none).execCtr).success
      then AgentTaskStatus.completed else AgentTaskStatus.failed], ?_, ?_, ?_⟩
    · simp only [appendMessageR_trace]
      rw [updateTaskStatusR_trace]
      · rw [updateTaskStatusR_trace]
        · rw [updateTaskStatusR_trace _ _ _ _ _ h]
          simp [hsucc, List.append_assoc]
        · simpa [updateTaskStatusR_ids] using h
      · simpa [updateTaskStatusR_ids] using h
    · right
      simpa using hname
    · simp [appendMessageR_idCtr, updateTaskStatusR_idCtr]
  · rename_i hcond
    refine ⟨[AgentTaskStatus.in_progress,
      if (env.exec (updateTaskStatusR s taskId AgentTaskStatus.in_progress none none).execCtr).success
      then AgentTaskStatus.completed else AgentTaskStatus.failed], ?_, ?_, ?_⟩
    · simp only [appendMessageR_trace]
      rw [updateTaskStatusR_trace]
      · rw [updateTaskStatusR_trace _ _ _ _ _ h]
        simp [List.append_assoc]
      · simpa [updateTaskStatusR_ids] using h
    · left
      intro hmem
      rcases List.mem_cons.mp hmem with h1 | h1
      · cases h1
      · rcases List.mem_cons.mp h1 with h2 | h2
        · by_cases hs : (env.exec (updateTaskStatusR s taskId AgentTaskStatus.in_progress none none).execCtr).success
          · rw [if_pos hs] at h2; cases h2
          · rw [if_neg hs] at h2; cases h2
        · cases h2
    · simp [appendMessageR_idCtr, updateTaskStatusR_idCtr]

/-- Trace shape of one tool call: one contiguous block for one fresh
task id, satisfying the gate property, and a strictly grown counter. -/
theorem processToolCall_trace (env : Env) (s : RunState) (tc : ToolCall) :
    ∃ sts : List AgentTaskStatus,
      (processToolCall env s tc).trace = s.trace ++ blockOf s.idCtr (some tc.name) sts
      ∧ gatingProp (blockOf s.idCtr (some tc.name) sts)
      ∧ s.idCtr < (processToolCall env s tc).idCtr := by
  have hpair : toolRequiresPermission tc.name = true →
      (some tc.name ≠ some "inject_script" ∧ some tc.name ≠ some "call_api"
        ∧ some tc.name ≠ some "pick_element") → False := by
    intro hperm hne
    rcases (toolRequiresPermission_iff tc.name).mp hperm with hn | hn
    · exact hne.2.1 (by rw [hn])
    · exact hne.1 (by rw [hn])
  simp only [processToolCall]
  split
  · rename_i hperm
    split
    · -- permission denied
      refine ⟨[AgentTaskStatus.awaiting_permission, AgentTaskStatus.failed], ?_, ?_, ?_⟩
      · simp only [appendMessageR_trace]
        rw [updateTaskStatusR_trace, requestPermissionR_trace, updateTaskStatusR_trace,
          notifyR_trace, setToolParamsR_trace, addTaskR_trace, addTaskR_snd]
        · simp [blockOf]
        · simp [notifyR_ids, setToolParamsR_ids, addTaskR_ids, addTaskR_snd]
        · simp [requestPermissionR_ids, updateTaskStatusR_ids, notifyR_ids,
            setToolParamsR_ids, addTaskR_ids, addTaskR_snd]
      · exact gatingProp_blockOf _ _ _
          (fun _ => stsGateOK_cons_awaiting _)
          (fun hne => absurd (hpair hperm hne) (by simp))
      · simp only [appendMessageR_idCtr, updateTaskStatusR_idCtr, requestPermissionR_idCtr,
          notifyR_idCtr, setToolParamsR_idCtr, addTaskR_idCtr]
        omega
    · -- permission approved
      have hmem : (addTaskR s (taskDescriptionFor tc.name) (some tc.name)).2 ∈
          ((requestPermissionR env (updateTaskStatusR (notifyR (setToolParamsR
            (addTaskR s (taskDescriptionFor tc.name) (some tc.name)).1
            (addTaskR s (taskDescriptionFor tc.name) (some tc.name)).2 tc.arguments))
            (addTaskR s (taskDescriptionFor tc.name) (some tc.name)).2
            AgentTaskStatus.awaiting_permission none none)
            tc.name tc.arguments (permissionDescription tc)).1).agent.tasks.map (·.id) := by
        simp [requestPermissionR_ids, updateTaskStatusR_ids, notifyR_ids,
          setToolParamsR_ids, addTaskR_ids, addTaskR_snd]
      obtain ⟨sts', htrace, hdisj, hid⟩ := processToolCallExec_trace env _ tc _ hmem
      refine ⟨AgentTaskStatus.awaiting_permission :: sts', ?_, ?_, ?_⟩
      · rw [htrace]
        rw [requestPermissionR_trace, updateTaskStatusR_trace, notifyR_trace,
          setToolParamsR_trace, addTaskR_trace, addTaskR_snd]
        · simp [blockOf]
        · simp [notifyR_ids, setToolParamsR_ids, addTaskR_ids, addTaskR_snd]
      · exact gatingProp_blockOf _ _ _
          (fun _ => stsGateOK_cons_awaiting _)
          (fun hne => absurd (hpair hperm hne) (by simp))
      · rw [hid]
        simp only [requestPermissionR_idCtr, updateTaskStatusR_idCtr, notifyR_idCtr,
          setToolParamsR_idCtr, addTaskR_idCtr]
        omega
  · -- no permission required
    rename_i hperm
    have hnotperm : toolRequiresPermission tc.name = false := by
      simpa using hperm
    have hmem : (addTaskR s (taskDescriptionFor tc.name) (some tc.name)).2 ∈
        (notifyR (setToolParamsR (addTaskR s (taskDescriptionFor tc.name) (some tc.name)).1
          (addTaskR s (taskDescriptionFor tc.name) (some tc.name)).2
          tc.arguments)).agent.tasks.map (·.id) := by
      simp [notifyR_ids, setToolParamsR_ids, addTaskR_ids, addTaskR_snd]
    obtain ⟨sts', htrace, hdisj, hid⟩ := processToolCallExec_trace env _ tc _ hmem
    refine ⟨sts', ?_, ?_, ?_⟩
    · rw [htrace]
      rw [notifyR_trace, setToolParamsR_trace, addTaskR_trace, addTaskR_snd]
      simp [blockOf]
    · refine gatingProp_blockOf _ _ _ ?_ ?_
      · intro hname
        exfalso
        rcases hname with hn | hn
        · have hn' : tc.name = "inject_script" := by injection hn
          rw [hn'] at hnotperm
          exact absurd hnotperm (by decide)
        · have hn' : tc.name = "call_api" := by injection hn
          rw [hn'] at hnotperm
          exact absurd hnotperm (by decide)
      · intro hne
        rcases hdisj with hd | hd
        · exact hd
        · exact absurd (show some tc.name = some "pick_element" by rw [hd]) hne.2.2
    · rw [hid]
      simp only [notifyR_idCtr, setToolParamsR_idCtr, addTaskR_idCtr]
      omega

/-- The empty trace satisfies the gate property. -/
theorem gatingProp_nil : gatingProp [] := by
  intro tid name h
  cases h

/-- The gate property and the id bound are preserved across a whole
batch of tool calls. -/
theorem processToolCalls_inv (env : Env) (tcs : List ToolCall) (s : RunState)
    (h1 : gatingProp s.trace)
    (h2 : ∀ e ∈ s.trace, eventTid e < s.idCtr) :
    gatingProp (processToolCalls env s tcs).trace
    ∧ (∀ e ∈ (processToolCalls env s tcs).trace,
        eventTid e < (processToolCalls env s tcs).idCtr)
    ∧ s.idCtr ≤ (processToolCalls env s tcs).idCtr := by
  induction tcs generalizing s with
  | nil => exact ⟨h1, h2, le_refl _⟩
  | cons tc rest ih =>
      obtain ⟨sts, htr, hgp, hlt⟩ := processToolCall_trace env s tc
      have hfresh : s.idCtr ∉ traceTids s.trace := by
        intro hc
        rcases List.mem_map.mp hc with ⟨e, he, heq⟩
        exact absurd (heq ▸ h2 e he) (lt_irrefl _)
      have hg' : gatingProp (processToolCall env s tc).trace := by
        rw [htr]
        exact gatingProp_append _ _ s.idCtr h1 (eventTid_blockOf _ _ _) hgp hfresh
      have hb' : ∀ e ∈ (processToolCall env s tc).trace,
          eventTid e < (processToolCall env s tc).idCtr := by
        intro e he
        rw [htr] at he
        rcases List.mem_append.mp he with h | h
        · exact lt_trans (h2 e h) hlt
        · rw [eventTid_blockOf _ _ _ e h]
          exact hlt
      have hrest := ih (processToolCall env s tc) hg' hb'
      exact ⟨hrest.1, hrest.2.1, le_trans (le_of_lt hlt) hrest.2.2⟩

/-- Trace shape of the thinking task and its status resolution. -/
theorem thinkingBlock_trace (s : RunState) (st : AgentTaskStatus) (r e : Option String) :
    (updateTaskStatusR (addTaskR s "Thinking..." (some "llm")).1
        (addTaskR s "Thinking..." (some "llm")).2 st r e).trace =
      s.trace ++ blockOf s.idCtr (some "llm") [st] := by
  rw [updateTaskStatusR_trace, addTaskR_trace, addTaskR_snd]
  · simp [blockOf]
  · simp [addTaskR_ids, addTaskR_snd]

/-- A thinking task's block satisfies the gate property: `llm` is not an
approval-gated name and never receives an awaiting write. -/
theorem gatingProp_llmBlock (t : Nat) (st : AgentTaskStatus)
    (h : st ≠ AgentTaskStatus.awaiting_permission) :
    gatingProp (blockOf t (some "llm") [st]) := by
  refine gatingProp_blockOf _ _ _ ?_ ?_
  · intro hname
    exfalso
    rcases hname with hn | hn <;> · injection hn with hn'; exact absurd hn' (by decide)
  · intro _
    intro hmem
    rcases List.mem_singleton.mp hmem with rfl
    exact h rfl

/-- `extractAndSaveScript` leaves the trace alone. -/
theorem extractAndSaveScript_trace (env : Env) (s : RunState) (c um : String)
    (asc : Option GeneratedScript) :
    (extractAndSaveScript env s c um asc).trace = s.trace := by
  unfold extractAndSaveScript
  cases hx : extractCodeBlock c
  · rfl
  · cases asc
    · rfl
    · rename_i sc
      cases hid : sc.id == 0 <;> simp [hid]

/-- `extractAndSaveScript` never shrinks the id counter. -/
theorem extractAndSaveScript_idCtr_ge (env : Env) (s : RunState) (c um : String)
    (asc : Option GeneratedScript) :
    s.idCtr ≤ (extractAndSaveScript env s c um asc).idCtr := by
  unfold extractAndSaveScript
  cases hx : extractCodeBlock c
  · exact le_refl _
  · cases asc
    · simp
    · rename_i sc
      cases hid : sc.id == 0 <;> simp [hid]


/-- Replacing the session inside a run state leaves the trace alone. -/
theorem trace_withAgent (s : RunState) (a : AgentState) :
    ({ s with agent := a } : RunState).trace = s.trace := rfl

/-- Replacing the session inside a run state keeps the id counter. -/
theorem idCtr_withAgent (s : RunState) (a : AgentState) :
    ({ s with agent := a } : RunState).idCtr = s.idCtr := rfl

/-- Trace shape of the gateway-error exit applied to the thinking task. -/
theorem thinkErrorExit_trace (s : RunState) (err : String) :
    (errorExit (addTaskR s "Thinking..." (some "llm")).1
        (addTaskR s "Thinking..." (some "llm")).2 err).trace =
      s.trace ++ blockOf s.idCtr (some "llm") [AgentTaskStatus.failed] := by
  simp only [errorExit, notifyR_trace, trace_withAgent]
  exact thinkingBlock_trace s _ _ _

/-- The gateway-error exit takes exactly the thinking task's fresh id. -/
theorem thinkErrorExit_idCtr (s : RunState) (err : String) :
    (errorExit (addTaskR s "Thinking..." (some "llm")).1
        (addTaskR s "Thinking..." (some "llm")).2 err).idCtr = s.idCtr + 1 := by
  simp only [errorExit, notifyR_idCtr, idCtr_withAgent, updateTaskStatusR_idCtr, addTaskR_idCtr]

/-- Trace shape of the completed thinking task. -/
theorem thinkCompleted_trace (s : RunState) :
    (updateTaskStatusR (addTaskR s "Thinking..." (some "llm")).1
        (addTaskR s "Thinking..." (some "llm")).2 AgentTaskStatus.completed none none).trace =
      s.trace ++ blockOf s.idCtr (some "llm") [AgentTaskStatus.completed] :=
  thinkingBlock_trace s _ _ _

/-- The completed thinking task takes exactly one fresh id. -/
theorem thinkCompleted_idCtr (s : RunState) :
    (updateTaskStatusR (addTaskR s "Thinking..." (some "llm")).1
        (addTaskR s "Thinking..." (some "llm")).2
        AgentTaskStatus.completed none none).idCtr = s.idCtr + 1 := by
  simp only [updateTaskStatusR_idCtr, addTaskR_idCtr]

/-- The gate property and the id bound survive the tool-call phase. -/
theorem toolCallsPhase_inv (env : Env) (s : RunState) (response : LLMResponse)
    (h1 : gatingProp s.trace)
    (h2 : ∀ e ∈ s.trace, eventTid e < s.idCtr) :
    gatingProp (toolCallsPhase env s response).trace
    ∧ ∀ e ∈ (toolCallsPhase env s response).trace,
        eventTid e < (toolCallsPhase env s response).idCtr := by
  have hg : gatingProp (appendMessageR s Role.assistant (jsOrStr response.content "")
      (some response.toolCalls) none).trace := by
    rw [appendMessageR_trace]; exact h1
  have hb : ∀ e ∈ (appendMessageR s Role.assistant (jsOrStr response.content "")
      (some response.toolCalls) none).trace,
      eventTid e < (appendMessageR s Role.assistant (jsOrStr response.content "")
        (some response.toolCalls) none).idCtr := by
    intro e he
    rw [appendMessageR_trace] at he
    rw [appendMessageR_idCtr]
    exact lt_trans (h2 e he) (Nat.lt_succ_self _)
  have hproc := processToolCalls_inv env response.toolCalls _ hg hb
  exact ⟨by simpa only [toolCallsPhase, notifyR_trace] using hproc.1,
    by simpa only [toolCallsPhase, notifyR_trace, notifyR_idCtr] using hproc.2.1⟩

/-- The finalize phase leaves the trace alone. -/
theorem finalizePhase_trace (env : Env) (s : RunState) (response : LLMResponse)
    (um : String) (asc : Option GeneratedScript) :
    (finalizePhase env s response um asc).trace = s.trace := by
  simp only [finalizePhase, notifyR_trace, trace_withAgent]
  split
  · rw [extractAndSaveScript_trace, appendMessageR_trace]
  · rfl

/-- The finalize phase never shrinks the id counter. -/
theorem finalizePhase_idCtr_ge (env : Env) (s : RunState) (response : LLMResponse)
    (um : String) (asc : Option GeneratedScript) :
    s.idCtr ≤ (finalizePhase env s response um asc).idCtr := by
  simp only [finalizePhase, notifyR_idCtr, idCtr_withAgent]
  split
  · have := extractAndSaveScript_idCtr_ge env
      (appendMessageR s Role.assistant (jsOrStr response.content "") none none)
      (jsOrStr response.content "") um asc
    rw [appendMessageR_idCtr] at this
    omega
  · exact le_refl _

/-- The gate property holds at every loop exit, together with the id
bound on the trace. -/
theorem agentLoop_gating (env : Env) (um : String) (asc : Option GeneratedScript)
    (fuel : Nat) :
    ∀ (s : RunState) (ic : Nat),
      gatingProp s.trace →
      (∀ e ∈ s.trace, eventTid e < s.idCtr) →
      gatingProp (agentLoop env um asc fuel s ic).1.trace
      ∧ ∀ e ∈ (agentLoop env um asc fuel s ic).1.trace,
          eventTid e < (agentLoop env um asc fuel s ic).1.idCtr := by
  induction fuel with
  | zero =>
      intro s ic h1 h2
      exact ⟨h1, h2⟩
  | succ fuel ih =>
      intro s ic h1 h2
      have hfresh : s.idCtr ∉ traceTids s.trace := by
        intro hc
        rcases List.mem_map.mp hc with ⟨e, he, heq⟩
        exact absurd (heq ▸ h2 e he) (lt_irrefl _)
      have hblockgating : ∀ st : AgentTaskStatus, st ≠ AgentTaskStatus.awaiting_permission →
          gatingProp (s.trace ++ blockOf s.idCtr (some "llm") [st]) := fun st hst =>
        gatingProp_append _ _ s.idCtr h1 (eventTid_blockOf _ _ _)
          (gatingProp_llmBlock _ _ hst) hfresh
      have hblockbound : ∀ st : AgentTaskStatus,
          ∀ e ∈ s.trace ++ blockOf s.idCtr (some "llm") [st], eventTid e < s.idCtr + 1 := by
        intro st e he
        rcases List.mem_append.mp he with h | h
        · exact lt_trans (h2 e h) (Nat.lt_succ_self _)
        · rw [eventTid_blockOf _ _ _ e h]
          exact Nat.lt_succ_self _
      simp only [agentLoop]
      split
      · split
        · -- gateway error
          constructor
          · rw [thinkErrorExit_trace]
            exact hblockgating _ (by decide)
          · intro e he
            rw [thinkErrorExit_trace] at he
            rw [thinkErrorExit_idCtr]
            exact hblockbound AgentTaskStatus.failed e he
        · -- no gateway error
          have hg2 : gatingProp (updateTaskStatusR (addTaskR s "Thinking..." (some "llm")).1
              (addTaskR s "Thinking..." (some "llm")).2
              AgentTaskStatus.completed none none).trace := by
            rw [thinkCompleted_trace]
            exact hblockgating _ (by decide)
          have hb2 : ∀ e ∈ (updateTaskStatusR (addTaskR s "Thinking..." (some "llm")).1
              (addTaskR s "Thinking..." (some "llm")).2
              AgentTaskStatus.completed none none).trace,
              eventTid e < (updateTaskStatusR (addTaskR s "Thinking..." (some "llm")).1
                (addTaskR s "Thinking..." (some "llm")).2
                AgentTaskStatus.completed none none).idCtr := by
            intro e he
            rw [thinkCompleted_trace] at he
            rw [thinkCompleted_idCtr]
            exact hblockbound AgentTaskStatus.completed e he
          split
          · -- tool calls: loop again
            have hphase := toolCallsPhase_inv env _ (env.responses (ic + 1 - 1)) hg2 hb2
            exact ih _ _ hphase.1 hphase.2
          · -- final answer
            constructor
            · rw [finalizePhase_trace]
              exact hg2
            · intro e he
              rw [finalizePhase_trace] at he
              exact lt_of_lt_of_le (hb2 e he) (finalizePhase_idCtr_ge env _ _ um asc)
      · exact ⟨h1, h2⟩

/-- C2: in every run, a task created for a tool call named
`inject_script` or `call_api` receives an `awaiting_permission` status
write before it is ever set to `in_progress` or `failed`, and a task
created for any other tool name never receives `awaiting_permission` —
except a `pick_element` task, which may. -/
theorem C2_approval_gating (env : Env) (agent : AgentState) (userMessage : String)
    (activeScript : Option GeneratedScript) (idCtr clock : Nat) :
    gatingProp (runAgent env agent userMessage activeScript idCtr clock).trace := by
  simp only [runAgent]
  split
  · -- missing API key: no task events at all
    rw [notifyR_trace]
    exact gatingProp_nil
  · have hloop := agentLoop_gating env userMessage activeScript maxIterations
      (notifyR (appendMessageR (notifyR
        { ({ agent := agent, idCtr := idCtr, clock := clock } : RunState)
          with agent := { agent with status := AgentStatus.running } })
        Role.user userMessage none none)) 0
      (by
        rw [notifyR_trace, appendMessageR_trace, notifyR_trace]
        exact gatingProp_nil)
      (by
        rw [notifyR_trace, appendMessageR_trace, notifyR_trace]
        intro e he
        cases he)
    split
    · rw [notifyR_trace]
      exact hloop.1
    · exact hloop.1

/-! ## Message structure of a run (claim C6) -/

/-- Appending a message extends the issued-id list by its own. -/
theorem assistantIds_append (msgs : List AgentMessage) (m : AgentMessage) :
    assistantIds (msgs ++ [m]) = assistantIds msgs ++ issuedIds m := by
  simp [assistantIds]

/-- A tool-role message issues nothing. -/
theorem issuedIds_of_tool (m : AgentMessage) (h : m.role = Role.tool) :
    issuedIds m = [] := by
  simp [issuedIds, h]

/-- P1 is preserved by appending any non-tool message. -/
theorem msgOK_append_nonTool (msgs : List AgentMessage) (m : AgentMessage)
    (h : msgOK msgs) (hrole : m.role ≠ Role.tool) : msgOK (msgs ++ [m]) := by
  intro i mi hget hrolei
  by_cases hi : i < msgs.length
  · rw [List.get?_append hi] at hget
    obtain ⟨cid, hcid, hcount⟩ := h i mi hget hrolei
    refine ⟨cid, hcid, ?_⟩
    rw [List.take_append_of_le_length (le_of_lt hi)]
    exact hcount
  · push_neg at hi
    rw [List.get?_append_right hi] at hget
    have hlt : i - msgs.length < 1 := by
      by_contra hc
      rw [List.get?_eq_none.mpr (by simpa using le_of_not_lt hc)] at hget
      cases hget
    have hieq : i = msgs.length := by omega
    simp only [hieq, Nat.sub_self, List.get?] at hget
    cases hget
    exact absurd hrolei hrole

/-- P1 is preserved by appending a tool message whose id matches exactly
one already-issued call id. -/
theorem msgOK_append_tool (msgs : List AgentMessage) (m : AgentMessage)
    (h : msgOK msgs) (hrole : m.role = Role.tool) (cid : String)
    (hcid : m.toolCallId = some cid)
    (hcount : (assistantIds msgs).count cid = 1) : msgOK (msgs ++ [m]) := by
  intro i mi hget hrolei
  by_cases hi : i < msgs.length
  · rw [List.get?_append hi] at hget
    obtain ⟨cid', hcid', hcount'⟩ := h i mi hget hrolei
    refine ⟨cid', hcid', ?_⟩
    rw [List.take_append_of_le_length (le_of_lt hi)]
    exact hcount'
  · push_neg at hi
    rw [List.get?_append_right hi] at hget
    have hlt : i - msgs.length < 1 := by
      by_contra hc
      rw [List.get?_eq_none.mpr (by simpa using le_of_not_lt hc)] at hget
      cases hget
    have hieq : i = msgs.length := by omega
    simp only [Nat.sub_self, hieq, List.get?] at hget
    cases hget
    refine ⟨cid, hcid, ?_⟩
    rw [hieq, List.take_left]
    exact hcount

/-- One more provider turn appends its ids. -/
theorem allIds_succ (env : Env) (k : Nat) :
    allIds env (k + 1) = allIds env k ++ responseIds (env.responses k) := by
  simp [allIds, List.range_succ]

/-- The ids of the first `k` turns start the ids of the first `n`. -/
theorem allIds_split (env : Env) (k n : Nat) (h : k ≤ n) :
    ∃ rest, allIds env n = allIds env k ++ rest := by
  induction n with
  | zero =>
      have hk : k = 0 := Nat.le_zero.mp h
      exact ⟨[], by simp [hk]⟩
  | succ n ih =>
      by_cases hkn : k = n + 1
      · exact ⟨[], by simp [hkn]⟩
      · obtain ⟨rest, hr⟩ := ih (by omega)
        exact ⟨rest ++ responseIds (env.responses n), by
          rw [allIds_succ, hr, List.append_assoc]⟩

/-- With globally distinct call ids, an id issued in the first `k` turns
is issued exactly once there. -/
theorem count_allIds_eq_one (env : Env) (k : Nat) (hk : k ≤ maxIterations)
    (hnodup : (allIds env maxIterations).Nodup) (cid : String)
    (hmem : cid ∈ allIds env k) : (allIds env k).count cid = 1 := by
  obtain ⟨rest, hr⟩ := allIds_split env k maxIterations hk
  have h10 : (allIds env maxIterations).count cid ≤ 1 :=
    List.nodup_iff_count_le_one.mp hnodup cid
  rw [hr, List.count_append] at h10
  have h1 : 1 ≤ (allIds env k).count cid := List.one_le_count_iff.mpr hmem
  omega

/-- `updateFirst` rewrites exactly the appended element when nothing
before it matches. -/
theorem updateFirst_append_last {α : Type} (p : α → Bool) (f : α → α)
    (l : List α) (x : α) (h : ∀ y ∈ l, p y = false) (hx : p x = true) :
    updateFirst p f (l ++ [x]) = l ++ [f x] := by
  induction l with
  | nil => simp [updateFirst, hx]
  | cons y ys ih =>
      have hy := h y (List.mem_cons_self y ys)
      simp only [List.cons_append, updateFirst, hy, Bool.false_eq_true, if_false,
        List.cons.injEq, true_and]
      exact ih fun z hz => h z (List.mem_cons_of_mem y hz)

/-- Message lists are untouched by the task mutators. -/
theorem addTaskR_msgs (s : RunState) (d : String) (n : Option String) :
    (addTaskR s d n).1.agent.messages = s.agent.messages := rfl

/-- `updateTaskStatusR` keeps the message list. -/
theorem updateTaskStatusR_msgs (s : RunState) (i : Nat) (st : AgentTaskStatus)
    (r e : Option String) :
    (updateTaskStatusR s i st r e).agent.messages = s.agent.messages := rfl

/-- `setToolParamsR` keeps the message list. -/
theorem setToolParamsR_msgs (s : RunState) (i : Nat) (a : Args) :
    (setToolParamsR s i a).agent.messages = s.agent.messages := rfl

/-- `notifyR` keeps the message list. -/
theorem notifyR_msgs (s : RunState) : (notifyR s).agent.messages = s.agent.messages := rfl

/-- `requestPermissionR` keeps the message list. -/
theorem requestPermissionR_msgs (env : Env) (s : RunState) (tn : String) (tp : Args)
    (d : String) :
    (requestPermissionR env s tn tp d).1.agent.messages = s.agent.messages := rfl

/-- The message appended by `appendMessageR`, explicitly. -/
theorem appendMessageR_msgs (s : RunState) (role : Role) (c : String)
    (tcs : Option (List ToolCall)) (tcid : Option String) :
    (appendMessageR s role c tcs tcid).agent.messages = s.agent.messages ++
      [{ id := s.idCtr, role := role, content := c, toolCalls := tcs,
         toolCallId := tcid, timestamp := s.clock }] := rfl

/-- The task list appended by `addTaskR`, explicitly. -/
theorem addTaskR_tasks (s : RunState) (d : String) (n : Option String) :
    (addTaskR s d n).1.agent.tasks = s.agent.tasks ++
      [{ id := s.idCtr, description := d, status := AgentTaskStatus.pending,
         toolName := n, timestamp := s.clock }] := rfl

/-- `setToolParamsR` on a freshly appended task rewrites only it. -/
theorem setToolParamsR_tasks_last (s : RunState) (l : List AgentTask) (t : AgentTask)
    (a : Args) (i : Nat) (hl : s.agent.tasks = l ++ [t]) (hi : t.id = i)
    (hfresh : ∀ y ∈ l, (y.id == i) = false) :
    (setToolParamsR s i a).agent.tasks = l ++ [{ t with toolParams := some a }] := by
  simp only [setToolParamsR, hl]
  rw [updateFirst_append_last _ _ _ _ hfresh (by simp [hi])]

/-- `updateTaskStatusR` on a freshly appended task rewrites only it. -/
theorem updateTaskStatusR_tasks_last (s : RunState) (l : List AgentTask) (t : AgentTask)
    (st : AgentTaskStatus) (r e : Option String) (i : Nat)
    (hl : s.agent.tasks = l ++ [t]) (hi : t.id = i)
    (hfresh : ∀ y ∈ l, (y.id == i) = false) :
    (updateTaskStatusR s i st r e).agent.tasks = l ++
      [{ t with
          status := st,
          result := (match r with | some x => some x | none => t.result),
          error := (match e with | some x => some x | none => t.error) }] := by
  simp only [updateTaskStatusR, updateTaskStatus, hl]
  rw [updateFirst_append_last _ _ _ _ hfresh (by simp [hi])]

theorem appendMessageR_tasks (s : RunState) (role : Role) (c : String)
    (tcs : Option (List ToolCall)) (tcid : Option String) :
    (appendMessageR s role c tcs tcid).agent.tasks = s.agent.tasks := rfl

theorem processToolCallExec_msgs (env : Env) (s : RunState) (tc : ToolCall)
    (taskId : Nat) :
    ∃ mid mc mts, (processToolCall.processToolCallExec env s tc taskId).agent.messages =
      s.agent.messages ++
        [{ id := mid, role := Role.tool, content := mc, toolCalls := none, toolCallId := some tc.id, timestamp := mts }] := by
  simp only [processToolCall.processToolCallExec]
  split
  · exact ⟨_, _, _, by rw [appendMessageR_msgs]; simp only [updateTaskStatusR_msgs]; rfl⟩
  · exact ⟨_, _, _, by rw [appendMessageR_msgs]; simp only [updateTaskStatusR_msgs]; rfl⟩

theorem processToolCallExec_tasks (env : Env) (s : RunState) (tc : ToolCall)
    (taskId : Nat) (l : List AgentTask) (t : AgentTask)
    (hl : s.agent.tasks = l ++ [t]) (hi : t.id = taskId)
    (hfresh : ∀ y ∈ l, (y.id == taskId) = false) :
    ∃ task : AgentTask,
      (processToolCall.processToolCallExec env s tc taskId).agent.tasks = l ++ [task]
      ∧ (task.status = AgentTaskStatus.completed ∨ task.status = AgentTaskStatus.failed)
      ∧ task.id = taskId := by
  simp only [processToolCall.processToolCallExec]
  split
  · have h1 := updateTaskStatusR_tasks_last s l t AgentTaskStatus.in_progress none none
      taskId hl hi hfresh
    have h2 := updateTaskStatusR_tasks_last
      { (updateTaskStatusR s taskId AgentTaskStatus.in_progress none none) with
        execCtr := (updateTaskStatusR s taskId AgentTaskStatus.in_progress none none).execCtr + 1 }
      l _ AgentTaskStatus.awaiting_permission none none taskId h1 hi hfresh
    have h3 := updateTaskStatusR_tasks_last _ l _
      (if (env.exec (updateTaskStatusR s taskId AgentTaskStatus.in_progress none none).execCtr).success
        then AgentTaskStatus.completed else AgentTaskStatus.failed)
      (env.exec (updateTaskStatusR s taskId AgentTaskStatus.in_progress none none).execCtr).data
      (env.exec (updateTaskStatusR s taskId AgentTaskStatus.in_progress none none).execCtr).error
      taskId h2 hi hfresh
    exact ⟨_, by rw [appendMessageR_tasks]; exact h3,
      by by_cases hs : (env.exec (updateTaskStatusR s taskId
            AgentTaskStatus.in_progress none none).execCtr).success
         · left; simp [hs]
         · right; simp [hs],
      by exact hi⟩
  · have h1 := updateTaskStatusR_tasks_last s l t AgentTaskStatus.in_progress none none
      taskId hl hi hfresh
    have h3 := updateTaskStatusR_tasks_last
      { (updateTaskStatusR s taskId AgentTaskStatus.in_progress none none) with
        execCtr := (updateTaskStatusR s taskId AgentTaskStatus.in_progress none none).execCtr + 1 }
      l _
      (if (env.exec (updateTaskStatusR s taskId AgentTaskStatus.in_progress none none).execCtr).success
        then AgentTaskStatus.completed else AgentTaskStatus.failed)
      (env.exec (updateTaskStatusR s taskId AgentTaskStatus.in_progress none none).execCtr).data
      (env.exec (updateTaskStatusR s taskId AgentTaskStatus.in_progress none none).execCtr).error
      taskId h1 hi hfresh
    exact ⟨_, by rw [appendMessageR_tasks]; exact h3,
      by by_cases hs : (env.exec (updateTaskStatusR s taskId
            AgentTaskStatus.in_progress none none).execCtr).success
         · left; simp [hs]
         · right; simp [hs],
      by exact hi⟩

/-- `notifyR` keeps the task list. -/
theorem notifyR_tasks (s : RunState) : (notifyR s).agent.tasks = s.agent.tasks := rfl

/-- `requestPermissionR` keeps the task list. -/
theorem requestPermissionR_tasks (env : Env) (s : RunState) (tn : String) (tp : Args)
    (d : String) : (requestPermissionR env s tn tp d).1.agent.tasks = s.agent.tasks := rfl

/-- The execution phase takes exactly one fresh id (the tool message's). -/
theorem processToolCallExec_idCtr (env : Env) (s : RunState) (tc : ToolCall)
    (taskId : Nat) :
    (processToolCall.processToolCallExec env s tc taskId).idCtr = s.idCtr + 1 := by
  simp only [processToolCall.processToolCallExec]
  split <;> rfl

/-- Net effect of one tool call on the session: exactly one task is
appended and it ends `completed` or `failed`, exactly one tool-role
message is appended and it carries `toolCallId = some tc.id`, and the id
counter strictly grows. -/
theorem processToolCall_effects (env : Env) (s : RunState) (tc : ToolCall)
    (hids : ∀ y ∈ s.agent.tasks, y.id < s.idCtr) :
    ∃ task mid mc mts,
      (processToolCall env s tc).agent.tasks = s.agent.tasks ++ [task]
      ∧ (task.status = AgentTaskStatus.completed ∨ task.status = AgentTaskStatus.failed)
      ∧ task.id = s.idCtr
      ∧ (processToolCall env s tc).agent.messages = s.agent.messages ++
          [{ id := mid, role := Role.tool, content := mc, toolCalls := none,
             toolCallId := some tc.id, timestamp := mts }]
      ∧ s.idCtr + 1 ≤ (processToolCall env s tc).idCtr := by
  have hfresh : ∀ y ∈ s.agent.tasks, (y.id == s.idCtr) = false := by
    intro y hy
    simp only [beq_eq_false_iff_ne, ne_eq]
    exact Nat.ne_of_lt (hids y hy)
  simp only [processToolCall, addTaskR_snd]
  set s3 := notifyR (setToolParamsR
    (addTaskR s (taskDescriptionFor tc.name) (some tc.name)).1 s.idCtr tc.arguments) with hs3
  obtain ⟨t1, ht1, hid1⟩ :
      ∃ t1 : AgentTask, s3.agent.tasks = s.agent.tasks ++ [t1] ∧ t1.id = s.idCtr := by
    rw [hs3, notifyR_tasks]
    exact ⟨_, setToolParamsR_tasks_last _ s.agent.tasks _ tc.arguments s.idCtr
      (addTaskR_tasks s _ _) rfl hfresh, rfl⟩
  have h3m : s3.agent.messages = s.agent.messages := by
    rw [hs3, notifyR_msgs, setToolParamsR_msgs, addTaskR_msgs]
  have h3i : s3.idCtr = s.idCtr + 1 := by
    rw [hs3, notifyR_idCtr, setToolParamsR_idCtr, addTaskR_idCtr]
  split
  · -- approval-gated path
    set s4 := updateTaskStatusR s3 s.idCtr AgentTaskStatus.awaiting_permission none none
      with hs4
    have ht2 := updateTaskStatusR_tasks_last s3 s.agent.tasks t1
      AgentTaskStatus.awaiting_permission none none s.idCtr ht1 hid1 hfresh
    set s5 := (requestPermissionR env s4 tc.name tc.arguments
      (permissionDescription tc)).1 with hs5
    have ht5 : s5.agent.tasks = s.agent.tasks ++
        [{ t1 with
            status := AgentTaskStatus.awaiting_permission,
            result := (match (none : Option String) with | some x => some x | none => t1.result),
            error := (match (none : Option String) with | some x => some x | none => t1.error) }] := by
      rw [hs5, requestPermissionR_tasks, hs4]
      exact ht2
    have h5m : s5.agent.messages = s.agent.messages := by
      rw [hs5, requestPermissionR_msgs, hs4, updateTaskStatusR_msgs, h3m]
    have h5i : s5.idCtr = s.idCtr + 2 := by
      rw [hs5, requestPermissionR_idCtr, hs4, updateTaskStatusR_idCtr, h3i]
    split
    · -- denied: fail the task and append the denial tool message
      set s6 := updateTaskStatusR s5 s.idCtr AgentTaskStatus.failed none
        (some "Permission denied by user") with hs6
      have ht6 := updateTaskStatusR_tasks_last s5 s.agent.tasks _
        AgentTaskStatus.failed none (some "Permission denied by user") s.idCtr ht5 hid1 hfresh
      exact ⟨_, s6.idCtr, deniedToolResultContent, s6.clock,
        by rw [appendMessageR_tasks, hs6]; exact ht6,
        by exact Or.inr rfl,
        by exact hid1,
        by rw [appendMessageR_msgs, hs6, updateTaskStatusR_msgs, h5m],
        by rw [appendMessageR_idCtr, hs6, updateTaskStatusR_idCtr, h5i]; omega⟩
    · -- approved: run the shared execution phase
      obtain ⟨task, htasks, hst, htid⟩ := processToolCallExec_tasks env s5 tc s.idCtr
        s.agent.tasks _ ht5 hid1 hfresh
      obtain ⟨mid, mc, mts, hmsgs⟩ := processToolCallExec_msgs env s5 tc s.idCtr
      refine ⟨task, mid, mc, mts, htasks, hst, htid, ?_, ?_⟩
      · rw [hmsgs, h5m]
      · rw [processToolCallExec_idCtr, h5i]
        omega
  · -- no approval needed: straight to the execution phase
    obtain ⟨task, htasks, hst, htid⟩ := processToolCallExec_tasks env s3 tc s.idCtr
      s.agent.tasks t1 ht1 hid1 hfresh
    obtain ⟨mid, mc, mts, hmsgs⟩ := processToolCallExec_msgs env s3 tc s.idCtr
    refine ⟨task, mid, mc, mts, htasks, hst, htid, ?_, ?_⟩
    · rw [hmsgs, h3m]
    · rw [processToolCallExec_idCtr, h3i]
      omega

/-- P1, the assistant-issued id list, the task-id bound and the absence
of awaiting `pick_element` tasks are all preserved across a batch of
tool calls whose ids each occur exactly once among the already-issued
assistant ids. -/
theorem processToolCalls_msgs_inv (env : Env) (tcs : List ToolCall) (s : RunState)
    (hok : msgOK s.agent.messages)
    (hcount : ∀ tc ∈ tcs, (assistantIds s.agent.messages).count tc.id = 1)
    (hids : ∀ y ∈ s.agent.tasks, y.id < s.idCtr)
    (hnp : noAwaitingPick s.agent.tasks) :
    msgOK (processToolCalls env s tcs).agent.messages
    ∧ assistantIds (processToolCalls env s tcs).agent.messages =
        assistantIds s.agent.messages
    ∧ (∀ y ∈ (processToolCalls env s tcs).agent.tasks,
        y.id < (processToolCalls env s tcs).idCtr)
    ∧ noAwaitingPick (processToolCalls env s tcs).agent.tasks
    ∧ s.idCtr ≤ (processToolCalls env s tcs).idCtr := by
  induction tcs generalizing s with
  | nil => exact ⟨hok, rfl, hids, hnp, Nat.le_refl _⟩
  | cons tc rest ih =>
      simp only [processToolCalls]
      obtain ⟨task, mid, mc, mts, htasks, hst, htid, hmsgs, hctr⟩ :=
        processToolCall_effects env s tc hids
      have hA : assistantIds (processToolCall env s tc).agent.messages =
          assistantIds s.agent.messages := by
        rw [hmsgs, assistantIds_append, issuedIds_of_tool _ rfl, List.append_nil]
      have hok' : msgOK (processToolCall env s tc).agent.messages := by
        rw [hmsgs]
        exact msgOK_append_tool _ _ hok rfl tc.id rfl
          (hcount tc (List.mem_cons_self tc rest))
      have hids' : ∀ y ∈ (processToolCall env s tc).agent.tasks,
          y.id < (processToolCall env s tc).idCtr := by
        intro y hy
        rw [htasks] at hy
        rcases List.mem_append.mp hy with hy | hy
        · exact lt_of_lt_of_le (hids y hy) (by omega)
        · rcases List.mem_singleton.mp hy with rfl
          omega
      have hnp' : noAwaitingPick (processToolCall env s tc).agent.tasks := by
        intro y hy
        rw [htasks] at hy
        rcases List.mem_append.mp hy with hy | hy
        · exact hnp y hy
        · rcases List.mem_singleton.mp hy with rfl
          rcases hst with hst | hst <;>
            exact fun hc => by rw [hst] at hc; cases hc.1
      have hcount' : ∀ tc' ∈ rest,
          (assistantIds (processToolCall env s tc).agent.messages).count tc'.id = 1 := by
        intro tc' h
        rw [hA]
        exact hcount tc' (List.mem_cons_of_mem tc h)
      obtain ⟨a, b, c, d, e⟩ := ih (processToolCall env s tc) hok' hcount' hids' hnp'
      exact ⟨a, by rw [b, hA], c, d, le_trans (by omega) e⟩

/-- `extractAndSaveScript` never touches the conversation. -/
theorem extractAndSaveScript_msgs (env : Env) (s : RunState) (c um : String)
    (asc : Option GeneratedScript) :
    (extractAndSaveScript env s c um asc).agent.messages = s.agent.messages := by
  unfold extractAndSaveScript
  cases hx : extractCodeBlock c
  · rfl
  · cases asc
    · rfl
    · rename_i sc
      cases hid : sc.id == 0 <;> simp [hid]

/-- `extractAndSaveScript` never touches the task list. -/
theorem extractAndSaveScript_tasks (env : Env) (s : RunState) (c um : String)
    (asc : Option GeneratedScript) :
    (extractAndSaveScript env s c um asc).agent.tasks = s.agent.tasks := by
  unfold extractAndSaveScript
  cases hx : extractCodeBlock c
  · rfl
  · cases asc
    · rfl
    · rename_i sc
      cases hid : sc.id == 0 <;> simp [hid]

/-- The completed thinking task leaves the conversation alone. -/
theorem thinkCompleted_msgs (s : RunState) :
    (updateTaskStatusR (addTaskR s "Thinking..." (some "llm")).1
        (addTaskR s "Thinking..." (some "llm")).2
        AgentTaskStatus.completed none none).agent.messages = s.agent.messages := by
  rw [updateTaskStatusR_msgs, addTaskR_msgs]

/-- The completed thinking task appends exactly one `llm` task. -/
theorem thinkCompleted_tasks (s : RunState)
    (hids : ∀ y ∈ s.agent.tasks, y.id < s.idCtr) :
    ∃ t : AgentTask,
      (updateTaskStatusR (addTaskR s "Thinking..." (some "llm")).1
          (addTaskR s "Thinking..." (some "llm")).2
          AgentTaskStatus.completed none none).agent.tasks = s.agent.tasks ++ [t]
      ∧ t.toolName = some "llm" ∧ t.id = s.idCtr := by
  have hfresh : ∀ y ∈ s.agent.tasks, (y.id == s.idCtr) = false := by
    intro y hy
    simp only [beq_eq_false_iff_ne, ne_eq]
    exact Nat.ne_of_lt (hids y hy)
  rw [addTaskR_snd]
  exact ⟨_, updateTaskStatusR_tasks_last (addTaskR s "Thinking..." (some "llm")).1
    s.agent.tasks _ AgentTaskStatus.completed none none s.idCtr
    (addTaskR_tasks s _ _) rfl hfresh, rfl, rfl⟩

/-- The gateway-error exit leaves the conversation alone. -/
theorem thinkErrorExit_msgs (s : RunState) (err : String) :
    (errorExit (addTaskR s "Thinking..." (some "llm")).1
        (addTaskR s "Thinking..." (some "llm")).2 err).agent.messages
      = s.agent.messages := by
  simp only [errorExit]
  rw [notifyR_msgs]
  show (updateTaskStatusR (addTaskR s "Thinking..." (some "llm")).1
      (addTaskR s "Thinking..." (some "llm")).2
      AgentTaskStatus.failed none (some err)).agent.messages = s.agent.messages
  rw [updateTaskStatusR_msgs, addTaskR_msgs]

/-- The gateway-error exit appends exactly one failed `llm` task. -/
theorem thinkErrorExit_tasks (s : RunState) (err : String)
    (hids : ∀ y ∈ s.agent.tasks, y.id < s.idCtr) :
    ∃ t : AgentTask,
      (errorExit (addTaskR s "Thinking..." (some "llm")).1
          (addTaskR s "Thinking..." (some "llm")).2 err).agent.tasks
        = s.agent.tasks ++ [t]
      ∧ t.toolName = some "llm" ∧ t.id = s.idCtr := by
  have hfresh : ∀ y ∈ s.agent.tasks, (y.id == s.idCtr) = false := by
    intro y hy
    simp only [beq_eq_false_iff_ne, ne_eq]
    exact Nat.ne_of_lt (hids y hy)
  simp only [errorExit]
  rw [notifyR_tasks]
  show ∃ t : AgentTask, (updateTaskStatusR (addTaskR s "Thinking..." (some "llm")).1
      (addTaskR s "Thinking..." (some "llm")).2
      AgentTaskStatus.failed none (some err)).agent.tasks = s.agent.tasks ++ [t]
      ∧ t.toolName = some "llm" ∧ t.id = s.idCtr
  rw [addTaskR_snd]
  exact ⟨_, updateTaskStatusR_tasks_last (addTaskR s "Thinking..." (some "llm")).1
    s.agent.tasks _ AgentTaskStatus.failed none (some err) s.idCtr
    (addTaskR_tasks s _ _) rfl hfresh, rfl, rfl⟩

/-- The finalize phase appends at most a (non-tool) assistant message. -/
theorem finalizePhase_msgs_ok (env : Env) (s : RunState) (response : LLMResponse)
    (um : String) (asc : Option GeneratedScript) (hok : msgOK s.agent.messages) :
    msgOK (finalizePhase env s response um asc).agent.messages := by
  simp only [finalizePhase]
  split
  · rw [notifyR_msgs]
    show msgOK (extractAndSaveScript env
      (appendMessageR s Role.assistant (jsOrStr response.content "") none none)
      (jsOrStr response.content "") um asc).agent.messages
    rw [extractAndSaveScript_msgs, appendMessageR_msgs]
    exact msgOK_append_nonTool _ _ hok (by intro hc; cases hc)
  · rw [notifyR_msgs]
    exact hok

/-- The finalize phase leaves the task list alone. -/
theorem finalizePhase_tasks (env : Env) (s : RunState) (response : LLMResponse)
    (um : String) (asc : Option GeneratedScript) :
    (finalizePhase env s response um asc).agent.tasks = s.agent.tasks := by
  simp only [finalizePhase]
  split
  · rw [notifyR_tasks]
    show (extractAndSaveScript env
      (appendMessageR s Role.assistant (jsOrStr response.content "") none none)
      (jsOrStr response.content "") um asc).agent.tasks = s.agent.tasks
    rw [extractAndSaveScript_tasks, appendMessageR_tasks]
  · rw [notifyR_tasks]

/-- The tool-call phase of turn `k` extends the assistant-issued id list
by exactly that turn's ids and preserves P1, the task-id bound and the
absence of awaiting `pick_element` tasks. -/
theorem toolCallsPhase_msgs_inv (env : Env) (s : RunState) (k : Nat)
    (hok : msgOK s.agent.messages)
    (hA : assistantIds s.agent.messages = allIds env k)
    (hk : k < maxIterations)
    (hnodup : (allIds env maxIterations).Nodup)
    (hids : ∀ y ∈ s.agent.tasks, y.id < s.idCtr)
    (hnp : noAwaitingPick s.agent.tasks) :
    msgOK (toolCallsPhase env s (env.responses k)).agent.messages
    ∧ assistantIds (toolCallsPhase env s (env.responses k)).agent.messages =
        allIds env (k + 1)
    ∧ (∀ y ∈ (toolCallsPhase env s (env.responses k)).agent.tasks,
        y.id < (toolCallsPhase env s (env.responses k)).idCtr)
    ∧ noAwaitingPick (toolCallsPhase env s (env.responses k)).agent.tasks := by
  set s1 := appendMessageR s Role.assistant (jsOrStr (env.responses k).content "")
    (some (env.responses k).toolCalls) none with hs1
  have h1m : s1.agent.messages = s.agent.messages ++
      [{ id := s.idCtr, role := Role.assistant,
         content := jsOrStr (env.responses k).content "",
         toolCalls := some (env.responses k).toolCalls, toolCallId := none,
         timestamp := s.clock }] := by
    rw [hs1, appendMessageR_msgs]
  have h1A : assistantIds s1.agent.messages = allIds env (k + 1) := by
    rw [h1m, assistantIds_append, hA, allIds_succ]
    simp [issuedIds, responseIds]
  have h1ok : msgOK s1.agent.messages := by
    rw [h1m]
    exact msgOK_append_nonTool _ _ hok (by intro hc; cases hc)
  have h1ids : ∀ y ∈ s1.agent.tasks, y.id < s1.idCtr := by
    intro y hy
    rw [hs1, appendMessageR_tasks] at hy
    rw [hs1, appendMessageR_idCtr]
    exact lt_trans (hids y hy) (Nat.lt_succ_self _)
  have h1np : noAwaitingPick s1.agent.tasks := by
    rw [hs1, appendMessageR_tasks]
    exact hnp
  have hcount : ∀ tc ∈ (env.responses k).toolCalls,
      (assistantIds s1.agent.messages).count tc.id = 1 := by
    intro tc htc
    rw [h1A]
    refine count_allIds_eq_one env (k + 1) hk hnodup tc.id ?_
    rw [allIds_succ]
    exact List.mem_append_right _ (List.mem_map_of_mem _ htc)
  obtain ⟨a, b, c, d, _⟩ :=
    processToolCalls_msgs_inv env (env.responses k).toolCalls s1 h1ok hcount h1ids h1np
  refine ⟨?_, ?_, ?_, ?_⟩
  · simpa only [toolCallsPhase, notifyR_msgs] using a
  · rw [show (toolCallsPhase env s (env.responses k)).agent.messages =
      (processToolCalls env s1 (env.responses k).toolCalls).agent.messages from
        by simp only [toolCallsPhase, notifyR_msgs], b, h1A]
  · intro y hy
    simp only [toolCallsPhase, notifyR_tasks, notifyR_idCtr] at hy ⊢
    exact c y hy
  · intro y hy
    simp only [toolCallsPhase, notifyR_tasks] at hy
    exact d y hy

/-- Through the whole agent loop, P1 holds of the conversation and no
task is left awaiting the element picker, provided the provider's
tool-call ids are globally distinct. -/
theorem agentLoop_msgs_inv (env : Env) (um : String) (asc : Option GeneratedScript)
    (fuel : Nat) (hnodup : (allIds env maxIterations).Nodup) :
    ∀ (s : RunState) (ic : Nat),
      msgOK s.agent.messages →
      assistantIds s.agent.messages = allIds env ic →
      (∀ y ∈ s.agent.tasks, y.id < s.idCtr) →
      noAwaitingPick s.agent.tasks →
      msgOK (agentLoop env um asc fuel s ic).1.agent.messages
      ∧ noAwaitingPick (agentLoop env um asc fuel s ic).1.agent.tasks := by
  induction fuel with
  | zero => intro s ic hok hA hids hnp; exact ⟨hok, hnp⟩
  | succ fuel ih =>
      intro s ic hok hA hids hnp
      simp only [agentLoop]
      split
      · rename_i hcond
        split
        · -- gateway error exit
          rename_i err herr
          constructor
          · rw [thinkErrorExit_msgs]
            exact hok
          · obtain ⟨t, ht, htn, htid⟩ := thinkErrorExit_tasks s err hids
            rw [ht]
            intro y hy
            rcases List.mem_append.mp hy with hy | hy
            · exact hnp y hy
            · rcases List.mem_singleton.mp hy with rfl
              exact fun hc => by rw [htn] at hc; exact absurd hc.2 (by decide)
        · -- thinking task completed
          have h2ok : msgOK (updateTaskStatusR (addTaskR s "Thinking..." (some "llm")).1
              (addTaskR s "Thinking..." (some "llm")).2
              AgentTaskStatus.completed none none).agent.messages := by
            rw [thinkCompleted_msgs]
            exact hok
          have h2A : assistantIds (updateTaskStatusR (addTaskR s "Thinking..." (some "llm")).1
              (addTaskR s "Thinking..." (some "llm")).2
              AgentTaskStatus.completed none none).agent.messages = allIds env ic := by
            rw [thinkCompleted_msgs]
            exact hA
          obtain ⟨t, ht, htn, htid⟩ := thinkCompleted_tasks s hids
          have h2ids : ∀ y ∈ (updateTaskStatusR (addTaskR s "Thinking..." (some "llm")).1
              (addTaskR s "Thinking..." (some "llm")).2
              AgentTaskStatus.completed none none).agent.tasks,
              y.id < (updateTaskStatusR (addTaskR s "Thinking..." (some "llm")).1
                (addTaskR s "Thinking..." (some "llm")).2
                AgentTaskStatus.completed none none).idCtr := by
            intro y hy
            rw [ht] at hy
            rw [thinkCompleted_idCtr]
            rcases List.mem_append.mp hy with hy | hy
            · exact lt_trans (hids y hy) (Nat.lt_succ_self _)
            · rcases List.mem_singleton.mp hy with rfl
              omega
          have h2np : noAwaitingPick (updateTaskStatusR
              (addTaskR s "Thinking..." (some "llm")).1
              (addTaskR s "Thinking..." (some "llm")).2
              AgentTaskStatus.completed none none).agent.tasks := by
            rw [ht]
            intro y hy
            rcases List.mem_append.mp hy with hy | hy
            · exact hnp y hy
            · rcases List.mem_singleton.mp hy with rfl
              exact fun hc => by rw [htn] at hc; exact absurd hc.2 (by decide)
          split
          · -- tool calls: loop again after the tool-call phase
            obtain ⟨a, b, c, d⟩ := toolCallsPhase_msgs_inv env _ ic h2ok h2A
              hcond.2 hnodup h2ids h2np
            exact ih _ _ a b c d
          · -- final answer
            exact ⟨finalizePhase_msgs_ok env _ _ um asc h2ok,
              by rw [finalizePhase_tasks]; exact h2np⟩
      · exact ⟨hok, hnp⟩

/-- P1 and the absence of awaiting `pick_element` tasks hold of the
session `runAgent` leaves behind, for any starting session satisfying
them with no assistant-issued ids yet. -/
theorem runAgent_msgs_inv (env : Env) (agent : AgentState) (um : String)
    (asc : Option GeneratedScript) (idCtr clock : Nat)
    (hnodup : (allIds env maxIterations).Nodup)
    (hok : msgOK agent.messages)
    (hA : assistantIds agent.messages = allIds env 0)
    (hids : ∀ y ∈ agent.tasks, y.id < idCtr)
    (hnp : noAwaitingPick agent.tasks) :
    msgOK (runAgent env agent um asc idCtr clock).agent.messages
    ∧ noAwaitingPick (runAgent env agent um asc idCtr clock).agent.tasks := by
  simp only [runAgent]
  split
  · exact ⟨hok, hnp⟩
  · split
    · refine agentLoop_msgs_inv env um asc maxIterations hnodup _ 0 ?_ ?_ ?_ ?_
      · rw [notifyR_msgs, appendMessageR_msgs]
        exact msgOK_append_nonTool _ _ hok (by intro hc; cases hc)
      · rw [notifyR_msgs, appendMessageR_msgs, assistantIds_append]
        simp only [issuedIds, List.append_nil, reduceCtorEq, if_false]
        exact hA
      · intro y hy
        exact lt_trans (hids y hy) (Nat.lt_succ_self idCtr)
      · exact hnp
    · refine agentLoop_msgs_inv env um asc maxIterations hnodup _ 0 ?_ ?_ ?_ ?_
      · rw [notifyR_msgs, appendMessageR_msgs]
        exact msgOK_append_nonTool _ _ hok (by intro hc; cases hc)
      · rw [notifyR_msgs, appendMessageR_msgs, assistantIds_append]
        simp only [issuedIds, List.append_nil, reduceCtorEq, if_false]
        exact hA
      · intro y hy
        exact lt_trans (hids y hy) (Nat.lt_succ_self idCtr)
      · exact hnp

/-- A fresh session's only message is the system prompt, so P1 holds. -/
theorem createAgent_msgOK (domain : String) (tabId : Nat)
    (asc : Option GeneratedScript) (idCtr clock : Nat) :
    msgOK (createAgent domain tabId asc idCtr clock).messages := by
  intro i m hget hrole
  cases i with
  | zero =>
      have hm : m = { id := idCtr + 1, role := Role.system, content := buildAgentSystemPrompt domain asc, timestamp := clock } := by
        simpa [createAgent] using hget.symm
      rw [hm] at hrole
      simp at hrole
  | succ n => simp [createAgent] at hget

/-- A fresh session has issued no tool-call ids. -/
theorem createAgent_assistantIds (domain : String) (tabId : Nat)
    (asc : Option GeneratedScript) (idCtr clock : Nat) :
    assistantIds (createAgent domain tabId asc idCtr clock).messages = [] := rfl

/-- When no task awaits the element picker, `handleElementSelected`
finds nothing to reconcile and returns the session untouched. -/
theorem handleElementSelectedAgent_noop (agent : AgentState) (ed : String)
    (i c : Nat) (hnp : noAwaitingPick agent.tasks) :
    (handleElementSelectedAgent agent ed i c).1 = agent := by
  unfold handleElementSelectedAgent
  have hfind : agent.tasks.find? (fun t =>
      t.status == AgentTaskStatus.awaiting_permission
      && t.toolName == some "pick_element") = none := by
    apply List.find?_eq_none.mpr
    intro t ht hc
    simp only [Bool.and_eq_true, beq_iff_eq] at hc
    exact hnp t ht hc
  rw [hfind]

/-- C6: over any provider whose tool-call ids are globally distinct,
every run from a fresh session leaves a conversation in which every
tool-role message's `toolCallId` matches exactly one tool-call id issued
by a strictly earlier assistant message; a subsequent element-selection
event leaves the session untouched (no task is ever left awaiting the
picker), so the property also covers the post-selection sequence. -/
theorem C6_tool_message_ids (env : Env) (domain um elementData : String)
    (tabId : Nat) (asc : Option GeneratedScript)
    (idCtr clock idCtr1 clock1 idCtr2 clock2 : Nat)
    (hnodup : (allIds env maxIterations).Nodup) :
    msgOK (runAgent env (createAgent domain tabId asc idCtr clock)
      um asc idCtr1 clock1).agent.messages
    ∧ (handleElementSelectedAgent
        (runAgent env (createAgent domain tabId asc idCtr clock) um asc idCtr1 clock1).agent
        elementData idCtr2 clock2).1 =
      (runAgent env (createAgent domain tabId asc idCtr clock) um asc idCtr1 clock1).agent
    ∧ msgOK (handleElementSelectedAgent
        (runAgent env (createAgent domain tabId asc idCtr clock) um asc idCtr1 clock1).agent
        elementData idCtr2 clock2).1.messages := by
  obtain ⟨hok, hnp⟩ := runAgent_msgs_inv env (createAgent domain tabId asc idCtr clock)
    um asc idCtr1 clock1 hnodup
    (createAgent_msgOK domain tabId asc idCtr clock)
    (by rw [createAgent_assistantIds]; rfl)
    (by intro y hy; simp [createAgent] at hy)
    (by intro t ht; simp [createAgent] at ht)
  have hnoop := handleElementSelectedAgent_noop _ elementData idCtr2 clock2 hnp
  exact ⟨hok, hnoop, by rw [hnoop]; exact hok⟩

/-- Witness for C6: the distinct-ids hypothesis holds of the concrete
one-snapshot provider, and the theorem applies to it. -/
theorem C6_tool_message_ids_witness :
    (allIds envOneSnap maxIterations).Nodup
    ∧ (msgOK (runAgent envOneSnap (createAgent "example.com" 1 none 0 0)
        "do it" none 2 0).agent.messages
      ∧ (handleElementSelectedAgent
          (runAgent envOneSnap (createAgent "example.com" 1 none 0 0) "do it" none 2 0).agent
          "el" 50 9).1 =
        (runAgent envOneSnap (createAgent "example.com" 1 none 0 0) "do it" none 2 0).agent
      ∧ msgOK (handleElementSelectedAgent
          (runAgent envOneSnap (createAgent "example.com" 1 none 0 0) "do it" none 2 0).agent
          "el" 50 9).1.messages) :=
  ⟨by decide, C6_tool_message_ids envOneSnap "example.com" "do it" "el" 1 none
    0 0 2 0 50 9 (by decide)⟩

theorem fenceOpenLen_cons_ne (c : Char) (s : List Char) (h : (c == '`') = false) :
    fenceOpenLen (c :: s) = none := by
  have h1 : ("```javascript\n".toList) = '`' :: "``javascript\n".toList := rfl
  have h2 : ("```js\n".toList) = '`' :: "``js\n".toList := rfl
  have h3 : ("```\n".toList) = '`' :: "``\n".toList := rfl
  have hne : ('`' == c) = false := by
    cases hc : c == '`'
    · exact (beq_eq_false_iff_ne ..).mpr fun hcc => by
        exact absurd (beq_iff_eq.mpr hcc.symm) (by rw [hc]; exact Bool.false_ne_true)
    · exact absurd hc (by rw [h]; exact Bool.false_ne_true)
  simp [fenceOpenLen, h1, h2, h3, List.isPrefixOf, hne]

theorem takeToClose_clean (code rest : List Char)
    (hcode : ∀ c ∈ code, (c == '`') = false) :
    takeToClose (code ++ ("```".toList ++ rest)) = some code := by
  induction code with
  | nil =>
      show takeToClose ('`' :: '`' :: '`' :: rest) = some []
      simp [takeToClose, List.isPrefixOf]
  | cons c cs ih =>
      have hc := hcode c (List.mem_cons_self c cs)
      have hpre : List.isPrefixOf ("```".toList) (c :: (cs ++ ("```".toList ++ rest))) = false := by
        have hne : ('`' == c) = false := by
          cases hcc : c == '`'
          · exact (beq_eq_false_iff_ne ..).mpr fun h => by
              exact absurd (beq_iff_eq.mpr h.symm) (by rw [hcc]; exact Bool.false_ne_true)
          · exact absurd hcc (by rw [hc]; exact Bool.false_ne_true)
        simp [List.isPrefixOf, hne]
      simp only [List.cons_append]
      rw [takeToClose, if_neg (by rw [hpre]; exact Bool.false_ne_true),
        ih fun x hx => hcode x (List.mem_cons_of_mem c hx)]

theorem matchFence_skip (pre t : List Char) (h : ∀ c ∈ pre, (c == '`') = false) :
    matchFence (pre ++ t) = matchFence t := by
  induction pre with
  | nil => rfl
  | cons c cs ih =>
      simp only [List.cons_append]
      rw [matchFence, fenceOpenLen_cons_ne c _ (h c (List.mem_cons_self c cs))]
      exact ih fun x hx => h x (List.mem_cons_of_mem c hx)

theorem matchFence_at_head (code rest : List Char)
    (hcode : ∀ c ∈ code, (c == '`') = false) :
    matchFence ("```javascript\n".toList ++ (code ++ ("```".toList ++ rest))) = some code := by
  show matchFence ('`' :: ("``javascript\n".toList ++ (code ++ ("```".toList ++ rest)))) = some code
  rw [matchFence]
  have hopen : fenceOpenLen ('`' :: ("``javascript\n".toList ++ (code ++ ("```".toList ++ rest))))
      = some 14 := by
    have e1 : '`' :: ("``javascript\n".toList ++ (code ++ ("```".toList ++ rest))) =
        '`' :: '`' :: '`' :: 'j' :: 'a' :: 'v' :: 'a' :: 's' :: 'c' :: 'r' :: 'i' :: 'p' :: 't' :: '\n' :: (code ++ ("```".toList ++ rest)) := rfl
    rw [e1]
    simp [fenceOpenLen, List.isPrefixOf]
  rw [hopen]
  have hdrop : List.drop 14 ('`' :: ("``javascript\n".toList ++ (code ++ ("```".toList ++ rest))))
      = code ++ ("```".toList ++ rest) := rfl
  simp only [hdrop, takeToClose_clean code rest hcode]

theorem extractCodeBlock_shape (pre code rest : List Char)
    (hpre : ∀ c ∈ pre, (c == '`') = false)
    (hcode : ∀ c ∈ code, (c == '`') = false) :
    extractCodeBlock (String.mk
      (pre ++ ("```javascript\n".toList ++ (code ++ ("```".toList ++ rest)))))
      = some (String.mk code) := by
  unfold extractCodeBlock
  have hl : (String.mk
      (pre ++ ("```javascript\n".toList ++ (code ++ ("```".toList ++ rest))))).toList
      = pre ++ ("```javascript\n".toList ++ (code ++ ("```".toList ++ rest))) := rfl
  rw [hl, matchFence_skip _ _ hpre, matchFence_at_head code rest hcode]
  rfl

theorem matchName_skip (s t : List Char) (h : noCiLabelInside s t = true) :
    matchName (s ++ t) = matchName t := by
  induction s with
  | nil => rfl
  | cons c rest ih =>
      rw [noCiLabelInside] at h
      have h1 : ciPrefixMatch ("script name:".toList) ((c :: rest) ++ t) = false := by
        cases hx : ciPrefixMatch ("script name:".toList) ((c :: rest) ++ t)
        · rfl
        · rw [hx] at h; simp at h
      have h2 : ciPrefixMatch ("name:".toList) ((c :: rest) ++ t) = false := by
        cases hx : ciPrefixMatch ("name:".toList) ((c :: rest) ++ t)
        · rfl
        · rw [hx] at h; simp at h
      have h3 : noCiLabelInside rest t = true := by
        cases hx : noCiLabelInside rest t
        · rw [hx] at h; simp at h
        · rfl
      rw [List.cons_append, matchName]
      rw [List.cons_append] at h1 h2
      rw [if_neg (by rw [h1]; exact Bool.false_ne_true),
        if_neg (by rw [h2]; exact Bool.false_ne_true)]
      exact ih h3

theorem takeWhile_ws_append (ws rest : List Char)
    (hws : ∀ c ∈ ws, jsWs c = true)
    (hrest : wsStops rest) :
    List.takeWhile (fun c => jsWs c) (ws ++ rest) = ws := by
  induction ws with
  | nil =>
      cases rest with
      | nil => rfl
      | cons c t =>
          have hr : jsWs c = false := hrest
          simp [List.takeWhile, hr]
  | cons w ws ih =>
      simp only [List.cons_append, List.takeWhile, hws w (List.mem_cons_self w ws)]
      exact congrArg (fun l => w :: l) (ih fun x hx => hws x (List.mem_cons_of_mem w hx))

theorem takeWhile_dot_append (nm post : List Char)
    (hnm : ∀ c ∈ nm, jsDot c = true)
    (hpost : dotStops post) :
    List.takeWhile (fun c => jsDot c) (nm ++ post) = nm := by
  induction nm with
  | nil =>
      cases post with
      | nil => rfl
      | cons c t =>
          have hr : jsDot c = false := hpost
          simp [List.takeWhile, hr]
  | cons c cs ih =>
      simp only [List.cons_append, List.takeWhile, hnm c (List.mem_cons_self c cs)]
      exact congrArg (fun l => c :: l) (ih fun x hx => hnm x (List.mem_cons_of_mem c hx))

theorem bestCapture_at (s : List Char) (k : Nat) (c0 : Char) (rest : List Char)
    (hdrop : List.drop k s = c0 :: rest) (hc0 : jsDot c0 = true) :
    bestCapture s k = some (List.takeWhile (fun x => jsDot x) (c0 :: rest)) := by
  cases k with
  | zero =>
      have hs : s = c0 :: rest := by simpa using hdrop
      subst hs
      simp [bestCapture, hc0]
  | succ k =>
      rw [bestCapture, hdrop]
      simp [hc0]

theorem captureAfterLabel_exact (ws nm post : List Char)
    (hws : ∀ c ∈ ws, jsWs c = true)
    (hnm0 : nm ≠ [])
    (hnmhead : ∀ c rest, nm = c :: rest → jsWs c = false)
    (hnmdot : ∀ c ∈ nm, jsDot c = true)
    (hpost : dotStops post) :
    captureAfterLabel (ws ++ nm ++ post) = some nm := by
  obtain ⟨c0, nm', rfl⟩ : ∃ c0 nm', nm = c0 :: nm' := by
    cases nm with
    | nil => exact absurd rfl hnm0
    | cons c t => exact ⟨c, t, rfl⟩
  have hc0ws : jsWs c0 = false := hnmhead c0 nm' rfl
  have hc0dot : jsDot c0 = true := hnmdot c0 (List.mem_cons_self c0 nm')
  have htw : List.takeWhile (fun c => jsWs c) (ws ++ (c0 :: nm') ++ post) = ws := by
    rw [List.append_assoc]
    exact takeWhile_ws_append ws _ hws hc0ws
  rw [captureAfterLabel, htw]
  have hdrop : List.drop ws.length (ws ++ (c0 :: nm') ++ post) = c0 :: (nm' ++ post) := by
    rw [List.append_assoc, List.drop_left]
    rfl
  rw [bestCapture_at _ ws.length c0 (nm' ++ post) hdrop hc0dot]
  have : List.takeWhile (fun x => jsDot x) (c0 :: (nm' ++ post)) = c0 :: nm' := by
    have := takeWhile_dot_append (c0 :: nm') post hnmdot hpost
    simpa [List.cons_append] using this
  rw [this]

theorem matchName_at_label (ws nm post : List Char)
    (hws : ∀ c ∈ ws, jsWs c = true)
    (hnm0 : nm ≠ [])
    (hnmhead : ∀ c rest, nm = c :: rest → jsWs c = false)
    (hnmdot : ∀ c ∈ nm, jsDot c = true)
    (hpost : dotStops post) :
    matchName ("Name:".toList ++ (ws ++ nm ++ post)) = some nm := by
  have e1 : "Name:".toList ++ (ws ++ nm ++ post) =
      'N' :: 'a' :: 'm' :: 'e' :: ':' :: (ws ++ nm ++ post) := rfl
  rw [e1, matchName]
  have h1 : ciPrefixMatch ("script name:".toList)
      ('N' :: 'a' :: 'm' :: 'e' :: ':' :: (ws ++ nm ++ post)) = false := rfl
  have h2 : ciPrefixMatch ("name:".toList)
      ('N' :: 'a' :: 'm' :: 'e' :: ':' :: (ws ++ nm ++ post)) = true := by
    unfold ciPrefixMatch
    rw [show List.take ("name:".toList).length ('N' :: 'a' :: 'm' :: 'e' :: ':' :: (ws ++ nm ++ post))
      = 'N' :: 'a' :: 'm' :: 'e' :: ':' :: List.take 0 (ws ++ nm ++ post) from rfl, List.take_zero]
    decide
  rw [if_neg (by rw [h1]; exact Bool.false_ne_true), if_pos h2]
  have hdrop : List.drop 5 ('N' :: 'a' :: 'm' :: 'e' :: ':' :: (ws ++ nm ++ post))
      = ws ++ nm ++ post := rfl
  rw [hdrop, captureAfterLabel_exact ws nm post hws hnm0 hnmhead hnmdot hpost]

theorem extractScriptName_shape (preN ws nm post : List Char)
    (hlab : noCiLabelInside preN ("Name:".toList ++ (ws ++ nm ++ post)) = true)
    (hws : ∀ c ∈ ws, jsWs c = true)
    (hnm0 : nm ≠ [])
    (hnmhead : ∀ c rest, nm = c :: rest → jsWs c = false)
    (hnmdot : ∀ c ∈ nm, jsDot c = true)
    (hpost : dotStops post) :
    extractScriptName (String.mk (preN ++ ("Name:".toList ++ (ws ++ nm ++ post))))
      = some (String.mk nm) := by
  unfold extractScriptName
  have hl : (String.mk (preN ++ ("Name:".toList ++ (ws ++ nm ++ post)))).toList
      = preN ++ ("Name:".toList ++ (ws ++ nm ++ post)) := rfl
  rw [hl, matchName_skip _ _ hlab,
    matchName_at_label ws nm post hws hnm0 hnmhead hnmdot hpost]
  rfl

theorem extractScriptName_none (l : List Char)
    (h : noCiLabelInside l [] = true) :
    extractScriptName (String.mk l) = none := by
  unfold extractScriptName
  have hl : (String.mk l).toList = l := rfl
  rw [hl, ← List.append_nil l, matchName_skip l [] h]
  rfl

/-- A script saved from a final answer, as a function of the state at
the save point. -/
def savedScriptOf (env : Env) (s : RunState) (c um : String) (raw : String) :
    GeneratedScript :=
  { id := s.idCtr, name := jsOrStr (extractScriptName c) "Generated Script",
    description := um, code := trimString raw, domain := s.agent.domain,
    prompt := um, model := env.model, createdAt := s.clock, updatedAt := s.clock,
    enabled := true, autoRun := false }

/-- With no active script being edited, a final answer holding a code
block persists exactly one new script and rewrites `activeScriptId` to
its fresh id. -/
theorem extractAndSaveScript_save (env : Env) (s : RunState) (c um raw : String)
    (hx : extractCodeBlock c = some raw) :
    (extractAndSaveScript env s c um none).savedScripts =
      s.savedScripts ++ [savedScriptOf env s c um raw]
    ∧ (extractAndSaveScript env s c um none).agent.activeScriptId = some s.idCtr := by
  unfold extractAndSaveScript
  rw [hx]
  exact ⟨rfl, rfl⟩

/-- When turn 0 is already a tool-call-free answer, the loop runs one
iteration and finalizes. -/
theorem agentLoop_turn0_final (env : Env) (um content : String)
    (asc : Option GeneratedScript) (s : RunState)
    (hst : s.agent.status = AgentStatus.running)
    (hresp : env.responses 0 = { content := some content, toolCalls := [], error := none }) :
    agentLoop env um asc maxIterations s 0 =
      (finalizePhase env (updateTaskStatusR (addTaskR s "Thinking..." (some "llm")).1
        (addTaskR s "Thinking..." (some "llm")).2 AgentTaskStatus.completed none none)
        (env.responses 0) um asc, 1, false) := by
  rw [show maxIterations = 9 + 1 from rfl]
  rw [agentLoop]
  rw [if_pos ⟨hst, by decide⟩]
  simp only [hresp]
  simp

/-- The finalize phase on a nonempty final answer holding a code block:
one script is appended and `activeScriptId` set to its id. -/
theorem finalizePhase_save (env : Env) (s : RunState) (content um raw : String)
    (hc : content ≠ "") (hx : extractCodeBlock content = some raw) :
    (finalizePhase env s { content := some content, toolCalls := [], error := none }
        um none).savedScripts =
      s.savedScripts ++ [savedScriptOf env
        (appendMessageR s Role.assistant content none none) content um raw]
    ∧ (finalizePhase env s { content := some content, toolCalls := [], error := none }
        um none).agent.activeScriptId = some (s.idCtr + 1) := by
  have htruthy : strTruthy (some content) = true := by simp [strTruthy, hc]
  have hjs : jsOrStr (some content) "" = content := by simp [jsOrStr, hc]
  simp only [finalizePhase, htruthy, hjs, if_true]
  obtain ⟨h1, h2⟩ := extractAndSaveScript_save env
    (appendMessageR s Role.assistant content none none) content um raw hx
  exact ⟨h1, h2⟩

/-- A run whose very first provider turn is a nonempty tool-call-free
answer holding a code block: the run persists exactly one script, built
from that answer, and rewrites the session's `activeScriptId` to its
fresh id (three ids are taken first: user message, thinking task, final
message). -/
theorem runAgent_turn0_save (env : Env) (agent : AgentState) (um content raw : String)
    (idCtr clock : Nat)
    (hkey : strTruthy env.apiKey = true)
    (hresp : env.responses 0 = { content := some content, toolCalls := [], error := none })
    (hc : content ≠ "")
    (hx : extractCodeBlock content = some raw) :
    (runAgent env agent um none idCtr clock).savedScripts =
      [{ id := idCtr + 3, name := jsOrStr (extractScriptName content) "Generated Script",
         description := um, code := trimString raw, domain := agent.domain,
         prompt := um, model := env.model, createdAt := clock, updatedAt := clock,
         enabled := true, autoRun := false }]
    ∧ (runAgent env agent um none idCtr clock).agent.activeScriptId = some (idCtr + 3) := by
  simp only [runAgent]
  rw [if_neg (by simp [hkey])]
  rw [agentLoop_turn0_final env um content none (notifyR (appendMessageR (notifyR ({ agent := { agent with status := AgentStatus.running }, idCtr := idCtr, clock := clock } : RunState)) Role.user um none none)) rfl hresp]
  rw [if_neg (by simp [maxIterations])]
  rw [hresp]
  obtain ⟨h1, h2⟩ := finalizePhase_save env
    (updateTaskStatusR (addTaskR (notifyR (appendMessageR (notifyR ({ agent := { agent with status := AgentStatus.running }, idCtr := idCtr, clock := clock } : RunState)) Role.user um none none)) "Thinking..." (some "llm")).1
      (addTaskR (notifyR (appendMessageR (notifyR ({ agent := { agent with status := AgentStatus.running }, idCtr := idCtr, clock := clock } : RunState)) Role.user um none none)) "Thinking..." (some "llm")).2
      AgentTaskStatus.completed none none)
    content um raw hc hx
  rw [h1, h2]
  exact ⟨rfl, rfl⟩

/-- The shape of a final answer carrying a fenced ```javascript block
followed (after a label-free gap) by a `Name:` line. -/
def contentA (pre code mid ws nm post : List Char) : String :=
  String.mk (pre ++ ("```javascript\n".toList ++ (code ++ ("```".toList ++
    (mid ++ ("Name:".toList ++ (ws ++ nm ++ post)))))))

/-- The shape of a final answer carrying a fenced ```javascript block
and no name label at all. -/
def contentB (pre2 code2 rest2 : List Char) : String :=
  String.mk (pre2 ++ ("```javascript\n".toList ++ (code2 ++ ("```".toList ++ rest2))))

/-- C8: if the first provider turn is a tool-call-free answer whose text
holds a fenced ```javascript block and (case one) a `Name:` line, the
persisted script's `code` is the fenced contents trimmed and its `name`
is the labelled name; with no `Name:` label anywhere (case two) the name
defaults to "Generated Script"; in both cases exactly one script is
persisted and the session's `activeScriptId` is rewritten to its id. -/
theorem C8_script_extraction (env1 env2 : Env) (agent : AgentState)
    (um : String) (idCtr clock : Nat)
    (pre code mid ws nm post pre2 code2 rest2 : List Char)
    (hpre : ∀ c ∈ pre, (c == '`') = false)
    (hcode : ∀ c ∈ code, (c == '`') = false)
    (hlab : noCiLabelInside (pre ++ ("```javascript\n".toList ++ (code ++ ("```".toList ++ mid))))
      ("Name:".toList ++ (ws ++ nm ++ post)) = true)
    (hws : ∀ c ∈ ws, jsWs c = true)
    (hnm0 : nm ≠ [])
    (hnmhead : ∀ c rest, nm = c :: rest → jsWs c = false)
    (hnmdot : ∀ c ∈ nm, jsDot c = true)
    (hpost : dotStops post)
    (hkey1 : strTruthy env1.apiKey = true)
    (hresp1 : env1.responses 0 = { content := some (contentA pre code mid ws nm post), toolCalls := [], error := none })
    (hpre2 : ∀ c ∈ pre2, (c == '`') = false)
    (hcode2 : ∀ c ∈ code2, (c == '`') = false)
    (hlab2 : noCiLabelInside (pre2 ++ ("```javascript\n".toList ++
      (code2 ++ ("```".toList ++ rest2)))) [] = true)
    (hkey2 : strTruthy env2.apiKey = true)
    (hresp2 : env2.responses 0 = { content := some (contentB pre2 code2 rest2), toolCalls := [], error := none }) :
    (∃ sc : GeneratedScript,
      (runAgent env1 agent um none idCtr clock).savedScripts = [sc]
      ∧ sc.name = String.mk nm
      ∧ sc.code = trimString (String.mk code)
      ∧ (runAgent env1 agent um none idCtr clock).agent.activeScriptId = some sc.id)
    ∧ (∃ sc : GeneratedScript,
      (runAgent env2 agent um none idCtr clock).savedScripts = [sc]
      ∧ sc.name = "Generated Script"
      ∧ sc.code = trimString (String.mk code2)
      ∧ (runAgent env2 agent um none idCtr clock).agent.activeScriptId = some sc.id) := by
  constructor
  · -- named case
    have hassoc : pre ++ ("```javascript\n".toList ++ (code ++ ("```".toList ++
        (mid ++ ("Name:".toList ++ (ws ++ nm ++ post)))))) =
        (pre ++ ("```javascript\n".toList ++ (code ++ ("```".toList ++ mid)))) ++
        ("Name:".toList ++ (ws ++ nm ++ post)) := by
      simp [List.append_assoc]
    have hname : extractScriptName (contentA pre code mid ws nm post) =
        some (String.mk nm) := by
      unfold contentA extractScriptName
      rw [show (String.mk (pre ++ ("```javascript\n".toList ++ (code ++ ("```".toList ++ (mid ++ ("Name:".toList ++ (ws ++ nm ++ post)))))))).toList = pre ++ ("```javascript\n".toList ++ (code ++ ("```".toList ++ (mid ++ ("Name:".toList ++ (ws ++ nm ++ post)))))) from rfl]
      rw [hassoc, matchName_skip _ _ hlab,
        matchName_at_label ws nm post hws hnm0 hnmhead hnmdot hpost]
      rfl
    have hxa : extractCodeBlock (contentA pre code mid ws nm post) =
        some (String.mk code) :=
      extractCodeBlock_shape pre code
        (mid ++ ("Name:".toList ++ (ws ++ nm ++ post))) hpre hcode
    have hca : contentA pre code mid ws nm post ≠ "" := by
      intro h
      have h' := congrArg String.data h
      simp [contentA] at h'
    have hnmne : String.mk nm ≠ "" := by
      cases nm with
      | nil => exact absurd rfl hnm0
      | cons c t =>
          intro h
          have h' := congrArg String.data h
          simp at h'
    obtain ⟨hs, ha⟩ := runAgent_turn0_save env1 agent um _ (String.mk code) idCtr clock
      hkey1 hresp1 hca hxa
    refine ⟨_, hs, ?_, rfl, ha⟩
    show jsOrStr (extractScriptName (contentA pre code mid ws nm post))
      "Generated Script" = String.mk nm
    rw [hname]
    simp [jsOrStr, hnmne]
  · -- unnamed case
    have hnameb : extractScriptName (contentB pre2 code2 rest2) = none :=
      extractScriptName_none _ hlab2
    have hxb : extractCodeBlock (contentB pre2 code2 rest2) = some (String.mk code2) :=
      extractCodeBlock_shape pre2 code2 rest2 hpre2 hcode2
    have hcb : contentB pre2 code2 rest2 ≠ "" := by
      intro h
      have h' := congrArg String.data h
      simp [contentB] at h'
    obtain ⟨hs, ha⟩ := runAgent_turn0_save env2 agent um _ (String.mk code2) idCtr clock
      hkey2 hresp2 hcb hxb
    refine ⟨_, hs, ?_, rfl, ha⟩
    show jsOrStr (extractScriptName (contentB pre2 code2 rest2))
      "Generated Script" = "Generated Script"
    rw [hnameb]
    rfl

/-- A provider that answers immediately with a named script. -/
def envC8a : Env :=
  { responses := fun _ => { content := some (contentA "Answer:\n".toList "let x = 1;\n".toList "\n".toList [' '] "Foo".toList "\n".toList), toolCalls := [], error := none },
    perm := fun _ => true, exec := fun _ => okExec,
    apiKey := some "k", model := "m", scriptsFor := fun _ => [] }

/-- A provider that answers immediately with an unnamed script. -/
def envC8b : Env :=
  { responses := fun _ => { content := some (contentB "Done\n".toList "y();\n".toList "\n".toList), toolCalls := [], error := none },
    perm := fun _ => true, exec := fun _ => okExec,
    apiKey := some "k", model := "m", scriptsFor := fun _ => [] }

/-- Witness for C8: both content shapes realized concretely. -/
theorem C8_script_extraction_witness :
    noCiLabelInside ("Answer:\n".toList ++ ("```javascript\n".toList ++ ("let x = 1;\n".toList ++ ("```".toList ++ "\n".toList)))) ("Name:".toList ++ ([' '] ++ "Foo".toList ++ "\n".toList)) = true
    ∧ ((∃ sc : GeneratedScript,
        (runAgent envC8a agent0 "make it" none 0 0).savedScripts = [sc]
        ∧ sc.name = String.mk "Foo".toList
        ∧ sc.code = trimString (String.mk "let x = 1;\n".toList)
        ∧ (runAgent envC8a agent0 "make it" none 0 0).agent.activeScriptId = some sc.id)
      ∧ (∃ sc : GeneratedScript,
        (runAgent envC8b agent0 "make it" none 0 0).savedScripts = [sc]
        ∧ sc.name = "Generated Script"
        ∧ sc.code = trimString (String.mk "y();\n".toList)
        ∧ (runAgent envC8b agent0 "make it" none 0 0).agent.activeScriptId = some sc.id)) :=
  ⟨by decide, C8_script_extraction envC8a envC8b agent0 "make it" 0 0
    "Answer:\n".toList "let x = 1;\n".toList "\n".toList [' '] "Foo".toList "\n".toList
    "Done\n".toList "y();\n".toList "\n".toList
    (by decide) (by decide) (by decide) (by decide) (by decide)
    (fun c rest h => by
      rw [show ("Foo".toList : List Char) = 'F' :: 'o' :: 'o' :: [] from rfl] at h
      injection h with h1 h2
      rw [← h1]
      decide)
    (by decide) (show jsDot '\n' = false by decide) (by decide) rfl
    (by decide) (by decide) (by decide) (by decide) rfl⟩
